import Mathlib

/-!
Shallow embedding of `zenodo_migrationkit/transform.py`: the legacy-record
transformation pipeline (`transform_record` and its thirteen steps) and the
migration orchestrator (`migrate_record`).

Records are JSON-like documents, modelled as association lists from string
keys to `JVal` values.  Python dynamic typing is modelled explicitly: every
fallible operation returns `Except PyErr`, where `PyErr` covers the
exception kinds the source can raise.  Aliasing between values stored under
different keys and floating-point numbers are not modelled; the ambient
clock read by the OAI step is injected as a string parameter.
-/

set_option maxHeartbeats 1000000

/-- JSON-like Python values: `None`, booleans, integers, strings, lists and
string-keyed dicts (as association lists in insertion order). -/
inductive JVal where
  | jnull
  | jbool (b : Bool)
  | jint (n : Int)
  | jstr (s : String)
  | jlist (xs : List JVal)
  | jdict (kvs : List (String × JVal))

mutual

/-- Boolean equality on JSON values (hand-rolled, since deriving does not
support this nested inductive). -/
def JVal.beq : JVal → JVal → Bool
  | .jnull, .jnull => true
  | .jbool a, .jbool b => a == b
  | .jint a, .jint b => a == b
  | .jstr a, .jstr b => a == b
  | .jlist xs, .jlist ys => JVal.beqList xs ys
  | .jdict xs, .jdict ys => JVal.beqKvs xs ys
  | _, _ => false

/-- Boolean equality on lists of JSON values. -/
def JVal.beqList : List JVal → List JVal → Bool
  | [], [] => true
  | x :: xs, y :: ys => JVal.beq x y && JVal.beqList xs ys
  | _, _ => false

/-- Boolean equality on key-value entry lists. -/
def JVal.beqKvs : List (String × JVal) → List (String × JVal) → Bool
  | [], [] => true
  | x :: xs, y :: ys => x.1 == y.1 && JVal.beq x.2 y.2 && JVal.beqKvs xs ys
  | _, _ => false

end

mutual

/-- Soundness of `JVal.beq`. -/
def JVal.eq_of_beq : (a b : JVal) → JVal.beq a b = true → a = b
  | .jnull, b, h => by cases b <;> simp_all [JVal.beq]
  | .jbool x, b, h => by cases b <;> simp_all [JVal.beq]
  | .jint x, b, h => by cases b <;> simp_all [JVal.beq]
  | .jstr x, b, h => by cases b <;> simp_all [JVal.beq]
  | .jlist xs, b, h => by
      cases b <;> simp_all [JVal.beq]
      case jlist ys => exact JVal.eqList_of_beqList xs ys h
  | .jdict xs, b, h => by
      cases b <;> simp_all [JVal.beq]
      case jdict ys => exact JVal.eqKvs_of_beqKvs xs ys h

/-- Soundness of `JVal.beqList`. -/
def JVal.eqList_of_beqList : (xs ys : List JVal) → JVal.beqList xs ys = true → xs = ys
  | [], [], _ => rfl
  | [], _ :: _, h => by simp [JVal.beqList] at h
  | _ :: _, [], h => by simp [JVal.beqList] at h
  | x :: xs, y :: ys, h => by
      have h' := h
      simp only [JVal.beqList, Bool.and_eq_true] at h'
      rw [JVal.eq_of_beq x y h'.1, JVal.eqList_of_beqList xs ys h'.2]

/-- Soundness of `JVal.beqKvs`. -/
def JVal.eqKvs_of_beqKvs :
    (xs ys : List (String × JVal)) → JVal.beqKvs xs ys = true → xs = ys
  | [], [], _ => rfl
  | [], _ :: _, h => by simp [JVal.beqKvs] at h
  | _ :: _, [], h => by simp [JVal.beqKvs] at h
  | x :: xs, y :: ys, h => by
      have h' := h
      simp only [JVal.beqKvs, Bool.and_eq_true] at h'
      have h1 : x.1 = y.1 := by
        have := h'.1.1
        simpa using this
      have h2 : x.2 = y.2 := JVal.eq_of_beq x.2 y.2 h'.1.2
      have h3 : xs = ys := JVal.eqKvs_of_beqKvs xs ys h'.2
      rw [Prod.ext_iff.mpr ⟨h1, h2⟩, h3]

end

mutual

/-- Reflexivity of `JVal.beq`. -/
def JVal.beq_refl : (a : JVal) → JVal.beq a a = true
  | .jnull => rfl
  | .jbool b => by simp [JVal.beq]
  | .jint n => by simp [JVal.beq]
  | .jstr s => by simp [JVal.beq]
  | .jlist xs => by simpa [JVal.beq] using JVal.beqList_refl xs
  | .jdict xs => by simpa [JVal.beq] using JVal.beqKvs_refl xs

/-- Reflexivity of `JVal.beqList`. -/
def JVal.beqList_refl : (xs : List JVal) → JVal.beqList xs xs = true
  | [] => rfl
  | x :: xs => by
      simp only [JVal.beqList, Bool.and_eq_true]
      exact ⟨JVal.beq_refl x, JVal.beqList_refl xs⟩

/-- Reflexivity of `JVal.beqKvs`. -/
def JVal.beqKvs_refl : (xs : List (String × JVal)) → JVal.beqKvs xs xs = true
  | [] => rfl
  | x :: xs => by
      simp only [JVal.beqKvs, Bool.and_eq_true]
      exact ⟨⟨by simp, JVal.beq_refl x.2⟩, JVal.beqKvs_refl xs⟩

end

instance : DecidableEq JVal := fun a b =>
  if h : JVal.beq a b = true then .isTrue (JVal.eq_of_beq a b h)
  else .isFalse (fun he => h (he ▸ JVal.beq_refl a))

/-- A record document: a Python dict with string keys, in insertion order. -/
abbrev Record := List (String × JVal)

/-- Exceptions raised by the migrated code paths. -/
inductive PyErr where
  | keyError (k : String)
  | indexError
  | typeError (msg : String)
  | attributeError (msg : String)
  | valueError
  | exnMsg (msg : String)
  | exnRecord (r : List (String × JVal))
  | noResultFound
deriving DecidableEq

instance {ε α : Type} [DecidableEq ε] [DecidableEq α] : DecidableEq (Except ε α) :=
  fun x y =>
  match x, y with
  | .ok a, .ok b =>
    if h : a = b then .isTrue (by rw [h]) else .isFalse (fun hc => h (Except.ok.inj hc))
  | .error e, .error f =>
    if h : e = f then .isTrue (by rw [h]) else .isFalse (fun hc => h (Except.error.inj hc))
  | .ok _, .error _ => .isFalse (fun hc => Except.noConfusion hc)
  | .error _, .ok _ => .isFalse (fun hc => Except.noConfusion hc)

/-- First value stored under key `k`, mirroring Python `record[k]` lookup. -/
def lookupKey (r : Record) (k : String) : Option JVal :=
  (r.find? (fun p => p.1 = k)).map Prod.snd

/-- Membership test, mirroring Python `k in record`. -/
def hasKey (r : Record) (k : String) : Bool :=
  r.any (fun p => decide (p.1 = k))

/-- Assignment `record[k] = v`: replace in place when the key exists,
otherwise append at the end (Python dict insertion order). -/
def setKey (r : Record) (k : String) (v : JVal) : Record :=
  if hasKey r k then r.map (fun p => if p.1 = k then (k, v) else p)
  else r ++ [(k, v)]

/-- Deletion `del record[k]` (used only where the source guards presence). -/
def delKey (r : Record) (k : String) : Record :=
  r.filter (fun p => decide (p.1 ≠ k))

/-- Python truthiness of a value. -/
def pyTruthy : JVal → Bool
  | .jnull => false
  | .jbool b => b
  | .jint n => decide (n ≠ 0)
  | .jstr s => decide (s ≠ "")
  | .jlist xs => !xs.isEmpty
  | .jdict kvs => !kvs.isEmpty

/-- Test for `isinstance(x, string_types)`. -/
def isStr : JVal → Bool
  | .jstr _ => true
  | _ => false

/-- Hashability: lists and dicts cannot be put into a Python set. -/
def hashable : JVal → Bool
  | .jlist _ => false
  | .jdict _ => false
  | _ => true

/-- Decimal value of one character, when it is a digit. -/
def charDigit (c : Char) : Option Nat :=
  if 48 ≤ c.toNat && c.toNat ≤ 57 then some (c.toNat - 48) else none

/-- Accumulating decimal parser over characters; `none` until the first
digit has been seen, `none` forever on a non-digit. -/
def parseDigits : List Char → Option Nat → Option Nat
  | [], acc => acc
  | c :: cs, acc =>
    match charDigit c, acc with
    | some d, some a => parseDigits cs (some (a * 10 + d))
    | some d, none => parseDigits cs (some d)
    | none, _ => none

/-- Parse of a decimal integer string, with optional leading minus. -/
def pyParseInt (s : String) : Option Int :=
  match s.data with
  | [] => none
  | Char.ofNat 45 :: rest => (parseDigits rest none).map (fun n => -(n : Int))
  | ds => (parseDigits ds none).map (fun n => (n : Int))

/-- Python `int(x)` coercion on JSON scalars. -/
def pyInt : JVal → Except PyErr Int
  | .jint n => .ok n
  | .jbool b => .ok (if b then 1 else 0)
  | .jstr s =>
    match pyParseInt s with
    | some n => .ok n
    | none => .error .valueError
  | _ => .error (.typeError "int() argument")

/-- Python `str(x)` as used by string formatting.  The container cases are
abbreviated; every theorem below only ever formats scalars. -/
def pyStr : JVal → String
  | .jnull => "None"
  | .jbool true => "True"
  | .jbool false => "False"
  | .jint n => toString n
  | .jstr s => s
  | .jlist _ => "[list]"
  | .jdict _ => "[dict]"

/-- Python iteration over a value: lists yield elements, strings yield
one-character strings, dicts yield their keys; other values raise. -/
def pyIter : JVal → Except PyErr (List JVal)
  | .jlist xs => .ok xs
  | .jstr s => .ok (s.data.map (fun c => .jstr (String.mk [c])))
  | .jdict kvs => .ok (kvs.map (fun p => .jstr p.1))
  | _ => .error (.typeError "object is not iterable")

/-- Python `list(set(x))`: iterate, require hashable elements, deduplicate
(some order; the source guarantees no order either). -/
def pySetOf (v : JVal) : Except PyErr (List JVal) := do
  let xs ← pyIter v
  if xs.all hashable then pure xs.dedup
  else throw (.typeError "unhashable type")

/-- Python `x[k]` subscription with a string key. -/
def pyGetItem (v : JVal) (k : String) : Except PyErr JVal :=
  match v with
  | .jdict kvs =>
    match lookupKey kvs k with
    | some x => .ok x
    | none => .error (.keyError k)
  | _ => .error (.typeError "value is not str-subscriptable")

/-- Character-list starts-with test. -/
def charsStartWith : List Char → List Char → Bool
  | _, [] => true
  | [], _ :: _ => false
  | a :: as, b :: bs => a = b && charsStartWith as bs

/-- Character-list contiguous-substring test. -/
def charsHasSub : List Char → List Char → Bool
  | s, pat =>
    charsStartWith s pat ||
      match s with
      | [] => false
      | _ :: t => charsHasSub t pat

/-- Substring test on strings. -/
def strHasSub (s pat : String) : Bool :=
  charsHasSub s.data pat.data

/-- Python `k in v` with a string `k`: key membership for dicts, element
membership for lists, substring for strings; other values raise. -/
def pyContainsKey (v : JVal) (k : String) : Except PyErr Bool :=
  match v with
  | .jdict kvs => .ok (hasKey kvs k)
  | .jlist xs => .ok (xs.contains (.jstr k))
  | .jstr s => .ok (strHasSub s k)
  | _ => .error (.typeError "argument is not iterable")

/-- Keys removed unconditionally by the first pipeline step (the source
lists `files_to_upload` twice; the duplicate is kept). -/
def removedKeys : List String :=
  ["fft", "files_to_upload", "files_to_upload", "collections",
   "preservation_score", "restriction", "url", "version_history",
   "documents", "creation_date", "modification_date",
   "system_control_number", "system_number"]

/-- Step `_remove_fields`: delete the fixed legacy keys, silently. -/
def _remove_fields (record : Record) : Except PyErr Record :=
  .ok (removedKeys.foldl delKey record)

/-- Step `_migrate_description`: default an absent `description` to `""`. -/
def _migrate_description (record : Record) : Except PyErr Record :=
  if hasKey record "description" then .ok record
  else .ok (setKey record "description" (.jstr ""))

/-- One iteration of the `_migrate_imprint` loop: copy key `k` from the
`imprint` value into the fresh `part_of` mapping, raising the
`Cannot migrate imprint` collision guard if `k` is already there. -/
def imprintLoopStep (imp : JVal) (po : Record) (k : String) : Except PyErr Record := do
  let b ← pyContainsKey imp k
  if b then
    if hasKey po k then throw (.exnMsg "Cannot migrate imprint")
    else do
      let v ← pyGetItem imp k
      pure (setKey po k v)
  else pure po

/-- The `part_of` mapping built by the `_migrate_imprint` loop. -/
def imprintPartOf (imp : JVal) : Except PyErr Record :=
  ["publisher", "title", "year"].foldlM (imprintLoopStep imp) ([] : Record)

/-- Step `_migrate_imprint`: copy `publisher`/`title`/`year` from `imprint`
into a freshly created `part_of` (collision guard fatal), then delete
`imprint`. -/
def _migrate_imprint (record : Record) : Except PyErr Record :=
  match lookupKey record "imprint" with
  | none => .ok record
  | some imp => do
    let po ← imprintPartOf imp
    pure (delKey (setKey record "part_of" (.jdict po)) "imprint")

/-- Step `_migrate_upload_type`: required rename `upload_type` to
`resource_type`; raises `Exception(record)` when the key is absent. -/
def _migrate_upload_type (record : Record) : Except PyErr Record :=
  match lookupKey record "upload_type" with
  | none => .error (.exnRecord record)
  | some ut => .ok (delKey (setKey record "resource_type" ut) "upload_type")

/-- One iteration of the `_migrate_authors` loop: collapse a list-valued
`affiliation` to its first element (raising IndexError on an empty list);
non-dict entries raise AttributeError on `.get`. -/
def migrateAuthorEntry : JVal → Except PyErr JVal
  | .jdict kvs =>
    match lookupKey kvs "affiliation" with
    | some (.jlist []) => throw .indexError
    | some (.jlist (x :: _)) => pure (.jdict (setKey kvs "affiliation" x))
    | _ => pure (.jdict kvs)
  | _ => throw (.attributeError "get")

/-- Result of the in-place mutation loop of `_migrate_authors` on the
`authors` value: lists are mapped entrywise; empty dicts and strings
iterate over nothing; any other iteration raises. -/
def migrateAuthorsValue : JVal → Except PyErr JVal
  | .jlist cs => do
      let cs' ← cs.mapM migrateAuthorEntry
      pure (JVal.jlist cs')
  | .jdict [] => pure (.jdict [])
  | .jstr "" => pure (.jstr "")
  | .jdict _ => throw (.attributeError "get")
  | .jstr _ => throw (.attributeError "get")
  | _ => throw (.typeError "object is not iterable")

/-- Step `_migrate_authors`: required rename `authors` to `creators`
(KeyError when absent), collapsing list affiliations in place. -/
def _migrate_authors (record : Record) : Except PyErr Record := do
  match lookupKey record "authors" with
  | none => throw (.keyError "authors")
  | some av => do
    let av' ← migrateAuthorsValue av
    pure (delKey (setKey record "creators" av') "authors")

/-- Step `_migrate_meetings`: fold `conference_url` into `meetings.url`,
creating the `meetings` mapping when absent. -/
def _migrate_meetings (record : Record) : Except PyErr Record :=
  match lookupKey record "conference_url" with
  | none => .ok record
  | some cu =>
    match lookupKey record "meetings" with
    | none =>
      .ok (delKey (setKey record "meetings" (.jdict [("url", cu)])) "conference_url")
    | some (.jdict kvs) =>
      .ok (delKey (setKey record "meetings" (.jdict (setKey kvs "url" cu))) "conference_url")
    | some _ => .error (.typeError "value does not support item assignment")

/-- The `owners` value built from the `owner` dict: one coerced integer
id when `id` is truthy, else empty. -/
def ownersListOf (okvs : List (String × JVal)) : Except PyErr JVal := do
  let idv := (lookupKey okvs "id").getD .jnull
  if pyTruthy idv then do
    let n ← pyInt idv
    pure (JVal.jlist [.jint n])
  else pure (JVal.jlist [])

/-- The `_internal` value built from the `owner` dict, with falsy fields
pruned from the single uploader agent. -/
def internalOf (okvs : List (String × JVal)) : JVal :=
  let agent0 : List (String × JVal) :=
    [("role", .jstr "uploader"),
     ("email", (lookupKey okvs "email").getD .jnull),
     ("username", (lookupKey okvs "username").getD .jnull),
     ("user_id", (lookupKey okvs "id").getD .jnull)]
  JVal.jdict
    [("state", .jstr "published"),
     ("source", .jdict
       [("legacy_deposit_id", (lookupKey okvs "deposition_id").getD .jnull),
        ("agents", .jlist [.jdict (agent0.filter (fun p => pyTruthy p.2))])])]

/-- Step `_migrate_owners`: split `owner` into `owners` and
`_internal.source.agents[0]`, pruning falsy agent sub-fields. -/
def _migrate_owners (record : Record) : Except PyErr Record := do
  match lookupKey record "owner" with
  | none => pure record
  | some o =>
    let record := delKey record "owner"
    match o with
    | .jdict okvs => do
      let owners ← ownersListOf okvs
      pure (setKey (setKey record "owners" owners) "_internal" (internalOf okvs))
    | _ => throw (.attributeError "get")

/-- Prefix of the fixed external grant-funder namespace. -/
def grantUrl (s : String) : String :=
  "http://dx.zenodo.org/grants/10.13039/501100000780::" ++ s

/-- Mapper of `_migrate_grants`: one grant entry to a reference object. -/
def migrateGrantEntry (x : JVal) : Except PyErr JVal := do
  let idv ← pyGetItem x "identifier"
  pure (JVal.jdict [("$ref", .jstr (grantUrl (pyStr idv)))])

/-- The rewritten `grants` value. -/
def grantsValueOf (gv : JVal) : Except PyErr JVal := do
  let xs ← pyIter gv
  let xs' ← xs.mapM migrateGrantEntry
  pure (JVal.jlist xs')

/-- Step `_migrate_grants`: map each grant to a reference object under the
fixed funder namespace. -/
def _migrate_grants (record : Record) : Except PyErr Record := do
  match lookupKey record "grants" with
  | none => pure record
  | some gv => do
    let gv' ← grantsValueOf gv
    pure (setKey record "grants" gv')

/-- One filtering step of `_migrate_references`: keep entries whose
`raw_reference` is truthy, projected to that single field. -/
def referenceStep (acc : List JVal) (x : JVal) : Except PyErr (List JVal) :=
  match x with
  | .jdict kvs =>
    let rr := (lookupKey kvs "raw_reference").getD .jnull
    .ok (if pyTruthy rr then acc ++ [.jdict [("raw_reference", rr)]] else acc)
  | _ => .error (.attributeError "get")

/-- The rewritten `references` value. -/
def referencesValueOf (rv : JVal) : Except PyErr JVal := do
  let xs ← pyIter rv
  let ys ← xs.foldlM referenceStep []
  pure (JVal.jlist ys)

/-- Step `_migrate_references`: filter `references` to entries having a
non-empty `raw_reference`, projecting only that field. -/
def _migrate_references (record : Record) : Except PyErr Record := do
  match lookupKey record "references" with
  | none => pure record
  | some rv => do
    let rv' ← referencesValueOf rv
    pure (setKey record "references" rv')

/-- Normalization `if isinstance(x, string_types): x = [x]` shared by the
OAI-indicator and the community steps. -/
def normalizeScalar (v : JVal) : JVal :=
  if isStr v then .jlist [v] else v

/-- Step `_migrate_oai`: pop `oai`, normalize `indicator` to a list, and
store id, sets and an update timestamp under `_oai`.  The wall-clock
datestamp the source computes is injected as the `now` parameter. -/
def _migrate_oai (now : String) (record : Record) : Except PyErr Record := do
  match lookupKey record "oai" with
  | none => pure record
  | some oaiv =>
    match oaiv with
    | .jdict okvs =>
      match lookupKey okvs "oai" with
      | some idv =>
        pure (setKey (delKey record "oai") "_oai"
          (.jdict [("id", idv),
                   ("sets", normalizeScalar ((lookupKey okvs "indicator").getD (.jlist []))),
                   ("updated", .jstr now)]))
      | none => throw (.keyError "oai")
    | _ => throw (.attributeError "get")

/-- Step `_migrate_communities`: normalize a scalar to a one-element list
and deduplicate via a set when truthy. -/
def _migrate_communities (record : Record) : Except PyErr Record := do
  match lookupKey record "communities" with
  | none => pure record
  | some c0 =>
    if pyTruthy (normalizeScalar c0) then do
      let s ← pySetOf (normalizeScalar c0)
      pure (setKey record "communities" (.jlist s))
    else pure record

/-- Step `_migrate_provisional_communities`: deduplicate, subtracting the
confirmed `communities` when present; when the source value is falsy the
key is deleted instead. -/
def _migrate_provisional_communities (record : Record) : Except PyErr Record := do
  match lookupKey record "provisional_communities" with
  | none => pure record
  | some p0 =>
    if pyTruthy (normalizeScalar p0) then
      match lookupKey record "communities" with
      | some cv => do
        let sa ← pySetOf (normalizeScalar p0)
        let sb ← pySetOf cv
        pure (setKey record "provisional_communities"
          (.jlist (sa.filter (fun x => decide (x ∉ sb)))))
      | none => do
        let sa ← pySetOf (normalizeScalar p0)
        pure (setKey record "provisional_communities" (.jlist sa))
    else pure (delKey record "provisional_communities")

/-- Fixed target-schema URI stamped by the final step. -/
def schemaUrl : String := "https://zenodo.org/schemas/records/record-v1.0.0.json"

/-- Step `_add_schema`: stamp the `$schema` marker, signalling completion. -/
def _add_schema (record : Record) : Except PyErr Record :=
  .ok (setKey record "$schema" (.jstr schemaUrl))

/-- The ordered transformation pipeline of `transform_record`. -/
def transformations (now : String) : List (Record → Except PyErr Record) :=
  [_remove_fields,
   _migrate_upload_type,
   _migrate_authors,
   _migrate_oai now,
   _migrate_grants,
   _migrate_meetings,
   _migrate_owners,
   _migrate_description,
   _migrate_imprint,
   _migrate_references,
   _migrate_communities,
   _migrate_provisional_communities,
   _add_schema]

/-- The legacy-JSON transform: return the record unchanged when `$schema`
is already present, otherwise left-fold the pipeline over it. -/
def transform_record (now : String) (record : Record) : Except PyErr Record :=
  if hasKey record "$schema" then .ok record
  else (transformations now).foldlM (fun r f => f r) record

/-- Lifecycle status of a persistent identifier. -/
inductive PIDStatus where
  | new
  | reserved
  | registered
  | redirected
  | deleted
deriving DecidableEq

/-- Database effects staged or committed by the orchestrator. -/
inductive Effect where
  | recordSaved (uuid : String) (r : Record)
  | inclusionRequest (community : JVal) (uuid : String)
  | bucketLink (uuid : String) (bucket : JVal)
  | pidSet (uuid : String) (st : PIDStatus)
deriving DecidableEq

/-- The transactional session: effects staged since the last commit, and
effects already committed. -/
structure Session where
  staged : List Effect
  committed : List Effect
deriving DecidableEq

/-- Stage one more effect in the open transaction. -/
def stageEffect (s : Session) (e : Effect) : Session :=
  ⟨s.staged ++ [e], s.committed⟩

/-- Commit: move every staged effect into the committed log. -/
def commitSession (s : Session) : Session :=
  ⟨[], s.committed ++ s.staged⟩

/-- Rollback: discard every staged effect. -/
def rollbackSession (s : Session) : Session :=
  ⟨[], s.committed⟩

/-- External collaborators of `migrate_record`: the record store, the
community store, the duplicate-inclusion-request test, an injected outcome
for the record-persistence call, and the injected clock. -/
structure Env where
  records : String → Option Record
  communityExists : JVal → Bool
  inclusionRequestExists : JVal → String → Bool
  persistFailure : Option PyErr
  now : String

/-- Staging of inclusion requests for the provisional community ids:
duplicate requests and missing communities are logged and skipped. -/
def inclusionStage (env : Env) (record_uuid : String) (cids : List JVal)
    (s : Session) : Session :=
  cids.foldl (fun s cid =>
    if env.communityExists cid then
      if env.inclusionRequestExists cid record_uuid then s
      else stageEffect s (.inclusionRequest cid record_uuid)
    else s) s

/-- Staging of one bucket link per distinct bucket id in the record
`files`, followed by the transaction commit. -/
def bucketStage (record_uuid : String) (record : Record) (s : Session) :
    Except PyErr Unit × Session :=
  match pyIter ((lookupKey record "files").getD (.jlist [])) with
  | .error e => (.error e, s)
  | .ok fls =>
    match fls.mapM (fun f => pyGetItem f "bucket") with
    | .error e => (.error e, s)
    | .ok bs =>
      if bs.all hashable then
        (.ok (),
         commitSession (bs.dedup.foldl
           (fun s b => stageEffect s (.bucketLink record_uuid b)) s))
      else (.error (.typeError "unhashable type"), s)

/-- Provisional-community processing and the rest of the `try` body after
the record has been persisted. -/
def migrateAfterPersist (env : Env) (record_uuid : String) (record : Record)
    (s : Session) : Except PyErr Unit × Session :=
  match lookupKey record "provisional_communities" with
  | none => bucketStage record_uuid record s
  | some pv =>
    match pyIter pv with
    | .error e => (.error e, s)
    | .ok cids =>
      bucketStage record_uuid (delKey record "provisional_communities")
        (inclusionStage env record_uuid cids s)

/-- The `try` body of `migrate_record`: fetch, skip when migrated,
transform, persist, then the post-persistence processing; exceptions are
returned together with the session state reached so far. -/
def migrateBody (env : Env) (record_uuid : String) (s : Session) :
    Except PyErr Unit × Session :=
  match env.records record_uuid with
  | none => (.error .noResultFound, s)
  | some record =>
    if hasKey record "$schema" then (.ok (), s)
    else
      match transform_record env.now record with
      | .error e => (.error e, s)
      | .ok record =>
        match env.persistFailure with
        | some e => (.error e, s)
        | none =>
          migrateAfterPersist env record_uuid record
            (stageEffect s (.recordSaved record_uuid record))

/-- Orchestrator `migrate_record`: run the body on a fresh transaction;
swallow `NoResultFound` (deleted record); on any other exception roll the
transaction back, force the PID status to reserved, commit that
compensating change, and re-raise. -/
def migrate_record (env : Env) (record_uuid : String) :
    Except PyErr Unit × Session :=
  match migrateBody env record_uuid ⟨[], []⟩ with
  | (.ok _, s) => (.ok (), s)
  | (.error .noResultFound, s) => (.ok (), s)
  | (.error e, s) =>
    (.error e,
     commitSession (stageEffect (rollbackSession s) (.pidSet record_uuid .reserved)))

/-- Precondition on the `authors` step used by the success theorem: every
entry is a dict whose `affiliation`, when a list, is non-empty. -/
def okAuthorEntry (c : JVal) : Bool :=
  match c with
  | .jdict kvs =>
    match lookupKey kvs "affiliation" with
    | some (.jlist xs) => !xs.isEmpty
    | _ => true
  | _ => false

/-- Precondition on an `owner` value: a dict whose `id`, when truthy, is
coercible to an integer. -/
def okOwner : JVal → Bool
  | .jdict kvs =>
    (match (lookupKey kvs "id").getD .jnull with
     | idv => !pyTruthy idv || (pyInt idv).toBool)
  | _ => false

/-- Precondition on a community-list value: a string, or a list of
hashable values. -/
def okCommValue : JVal → Bool
  | .jstr _ => true
  | .jlist xs => xs.all hashable
  | _ => false

/-- Precondition on one `grants` entry: a dict with an `identifier`. -/
def okGrant : JVal → Bool
  | .jdict kvs => hasKey kvs "identifier"
  | _ => false

/-- Precondition on one `references` entry: a dict. -/
def okReference : JVal → Bool
  | .jdict _ => true
  | _ => false

/-- The per-step preconditions on required and optional fields under which
the whole pipeline succeeds: `upload_type` and a well-formed `authors` are
required; every other trigger key may be absent, and when present must
have the shape its step handles without raising. -/
def transformPre (r : Record) : Bool :=
  hasKey r "upload_type" &&
  (match lookupKey r "authors" with
   | some (.jlist cs) => cs.all okAuthorEntry
   | _ => false) &&
  (match lookupKey r "oai" with
   | none => true
   | some (.jdict okvs) => hasKey okvs "oai"
   | some _ => false) &&
  (match lookupKey r "grants" with
   | none => true
   | some (.jlist gs) => gs.all okGrant
   | some _ => false) &&
  (!hasKey r "conference_url" || !hasKey r "meetings" ||
   (match lookupKey r "meetings" with
    | some (.jdict _) => true
    | _ => false)) &&
  (match lookupKey r "owner" with
   | none => true
   | some o => okOwner o) &&
  (match lookupKey r "imprint" with
   | none => true
   | some (.jdict _) => true
   | some _ => false) &&
  (match lookupKey r "references" with
   | none => true
   | some (.jlist xs) => xs.all okReference
   | some _ => false) &&
  (match lookupKey r "communities" with
   | none => true
   | some c => okCommValue c) &&
  (match lookupKey r "provisional_communities" with
   | none => true
   | some p => okCommValue p)

/-- Frame relation: every key outside `ks` has the same lookup in `r` and
in `r'`. -/
def framedOn (r r' : Record) (ks : List String) : Prop :=
  ∀ k : String, k ∉ ks → lookupKey r' k = lookupKey r k

theorem lookupKey_cons (p : String × JVal) (r : Record) (k : String) :
    lookupKey (p :: r) k = if p.1 = k then some p.2 else lookupKey r k := by
  by_cases h : p.1 = k
  · simp [lookupKey, List.find?_cons_of_pos, h]
  · simp [lookupKey, List.find?_cons_of_neg, h]

theorem hasKey_cons (p : String × JVal) (r : Record) (k : String) :
    hasKey (p :: r) k = (decide (p.1 = k) || hasKey r k) := by
  simp [hasKey]

theorem hasKey_eq_isSome (r : Record) (k : String) :
    hasKey r k = (lookupKey r k).isSome := by
  induction r with
  | nil => rfl
  | cons p r ih =>
    rw [hasKey_cons, lookupKey_cons, ih]
    by_cases h : p.1 = k <;> simp [h]

theorem lookupKey_map_replace_self (r : Record) (k : String) (v : JVal) :
    lookupKey (r.map (fun p => if p.1 = k then (k, v) else p)) k =
      if hasKey r k then some v else none := by
  induction r with
  | nil => rfl
  | cons p r ih =>
    by_cases h : p.1 = k
    · simp [h, lookupKey_cons, hasKey_cons]
    · simp only [List.map_cons, if_neg h, lookupKey_cons, if_neg h, hasKey_cons, ih]
      simp [h]

theorem lookupKey_map_replace_ne (r : Record) (k : String) (v : JVal) (k' : String)
    (h : k' ≠ k) :
    lookupKey (r.map (fun p => if p.1 = k then (k, v) else p)) k' = lookupKey r k' := by
  induction r with
  | nil => rfl
  | cons p r ih =>
    by_cases hp : p.1 = k
    · have : ¬ (k = k') := fun he => h he.symm
      simp [hp, lookupKey_cons, this, ih]
    · simp [List.map_cons, if_neg hp, lookupKey_cons, ih]

theorem lookupKey_append (r₁ r₂ : Record) (k : String) :
    lookupKey (r₁ ++ r₂) k =
      match lookupKey r₁ k with
      | some v => some v
      | none => lookupKey r₂ k := by
  induction r₁ with
  | nil => rfl
  | cons p r ih =>
    by_cases h : p.1 = k <;> simp [lookupKey_cons, h, ih]

theorem lookup_setKey_self (r : Record) (k : String) (v : JVal) :
    lookupKey (setKey r k v) k = some v := by
  unfold setKey
  by_cases h : hasKey r k
  · simp [h, lookupKey_map_replace_self]
  · have hnone : lookupKey r k = none := by
      cases hl : lookupKey r k with
      | none => rfl
      | some v' =>
        exact absurd (by rw [hasKey_eq_isSome, hl]; rfl) h
    rw [if_neg h, lookupKey_append]
    simp [hnone, lookupKey_cons]

theorem lookup_setKey_ne (r : Record) (k : String) (v : JVal) (k' : String)
    (h : k' ≠ k) :
    lookupKey (setKey r k v) k' = lookupKey r k' := by
  unfold setKey
  by_cases hh : hasKey r k
  · simp [hh, lookupKey_map_replace_ne r k v k' h]
  · rw [if_neg hh, lookupKey_append]
    have hne : k ≠ k' := fun he => h he.symm
    cases hl : lookupKey r k' with
    | none => simp [hl, lookupKey_cons, hne, lookupKey]
    | some v' => simp [hl]

theorem lookup_delKey_self (r : Record) (k : String) :
    lookupKey (delKey r k) k = none := by
  induction r with
  | nil => rfl
  | cons p r ih =>
    simp only [delKey, List.filter_cons, ne_eq, decide_not] at ih ⊢
    by_cases h : p.1 = k
    · simpa [h] using ih
    · simpa [h, lookupKey_cons] using ih

theorem lookup_delKey_ne (r : Record) (k k' : String) (h : k' ≠ k) :
    lookupKey (delKey r k) k' = lookupKey r k' := by
  induction r with
  | nil => rfl
  | cons p r ih =>
    simp only [delKey, List.filter_cons, ne_eq, decide_not] at ih ⊢
    by_cases hp : p.1 = k
    · have hkk : ¬ (k = k') := fun he => h he.symm
      simpa [hp, lookupKey_cons, hkk] using ih
    · by_cases hq : p.1 = k'
      · simp [hp, hq, h, lookupKey_cons]
      · simpa [hp, hq, h, lookupKey_cons] using ih

theorem lookup_foldl_delKey (ks : List String) (r : Record) (k : String)
    (h : k ∉ ks) : lookupKey (ks.foldl delKey r) k = lookupKey r k := by
  induction ks generalizing r with
  | nil => rfl
  | cons a ks ih =>
    simp only [List.foldl_cons]
    have hk : k ∉ ks := fun hm => h (List.mem_cons_of_mem a hm)
    have hne : k ≠ a := fun he => h (he ▸ List.mem_cons_self a ks)
    rw [ih (delKey r a) hk, lookup_delKey_ne r a k hne]

theorem except_bind_ok {α β : Type} {x : Except PyErr α} {f : α → Except PyErr β} {b : β}
    (h : (x >>= f) = .ok b) : ∃ a, x = .ok a ∧ f a = .ok b := by
  cases x with
  | ok a => exact ⟨a, rfl, h⟩
  | error e => exact Except.noConfusion h

theorem except_throw_ne_ok {α : Type} {e : PyErr} {b : α}
    (h : (throw e : Except PyErr α) = .ok b) : False :=
  Except.noConfusion h

theorem frame_remove_fields {r r' : Record} (h : _remove_fields r = .ok r')
    {k : String} (hk : k ∉ removedKeys) : lookupKey r' k = lookupKey r k := by
  unfold _remove_fields at h
  injection h with h
  rw [← h]
  exact lookup_foldl_delKey _ r k hk

theorem frame_upload_type {r r' : Record} (h : _migrate_upload_type r = .ok r')
    {k : String} (h1 : k ≠ "resource_type") (h2 : k ≠ "upload_type") :
    lookupKey r' k = lookupKey r k := by
  unfold _migrate_upload_type at h
  cases hl : lookupKey r "upload_type" with
  | none => rw [hl] at h; exact absurd h (by simp)
  | some ut =>
    rw [hl] at h
    injection h with h
    rw [← h, lookup_delKey_ne _ _ _ h2, lookup_setKey_ne _ _ _ _ h1]

theorem frame_authors {r r' : Record} (h : _migrate_authors r = .ok r')
    {k : String} (h1 : k ≠ "creators") (h2 : k ≠ "authors") :
    lookupKey r' k = lookupKey r k := by
  unfold _migrate_authors at h
  cases hl : lookupKey r "authors" with
  | none => rw [hl] at h; exact absurd (except_throw_ne_ok h) (fun f => f)
  | some av =>
    rw [hl] at h
    obtain ⟨av', _, h⟩ := except_bind_ok h
    injection h with h
    rw [← h, lookup_delKey_ne _ _ _ h2, lookup_setKey_ne _ _ _ _ h1]

theorem frame_oai {now : String} {r r' : Record} (h : _migrate_oai now r = .ok r')
    {k : String} (h1 : k ≠ "oai") (h2 : k ≠ "_oai") :
    lookupKey r' k = lookupKey r k := by
  unfold _migrate_oai at h
  split at h
  · injection h with h; rw [← h]
  · split at h
    · split at h
      · injection h with h
        rw [← h, lookup_setKey_ne _ _ _ _ h2, lookup_delKey_ne _ _ _ h1]
      · exact absurd (except_throw_ne_ok h) (fun f => f)
    · exact absurd (except_throw_ne_ok h) (fun f => f)

theorem frame_grants {r r' : Record} (h : _migrate_grants r = .ok r')
    {k : String} (h1 : k ≠ "grants") : lookupKey r' k = lookupKey r k := by
  unfold _migrate_grants at h
  cases hl : lookupKey r "grants" with
  | none => rw [hl] at h; injection h with h; rw [← h]
  | some gv =>
    rw [hl] at h
    obtain ⟨gv', _, h⟩ := except_bind_ok h
    injection h with h
    rw [← h, lookup_setKey_ne _ _ _ _ h1]

theorem frame_meetings {r r' : Record} (h : _migrate_meetings r = .ok r')
    {k : String} (h1 : k ≠ "conference_url") (h2 : k ≠ "meetings") :
    lookupKey r' k = lookupKey r k := by
  unfold _migrate_meetings at h
  cases hl : lookupKey r "conference_url" with
  | none => rw [hl] at h; injection h with h; rw [← h]
  | some cu =>
    rw [hl] at h
    cases hm : lookupKey r "meetings" with
    | none =>
      rw [hm] at h
      injection h with h
      rw [← h, lookup_delKey_ne _ _ _ h1, lookup_setKey_ne _ _ _ _ h2]
    | some mv =>
      rw [hm] at h
      cases mv with
      | jdict kvs =>
        injection h with h
        rw [← h, lookup_delKey_ne _ _ _ h1, lookup_setKey_ne _ _ _ _ h2]
      | jnull => exact absurd h (by simp)
      | jbool b => exact absurd h (by simp)
      | jint n => exact absurd h (by simp)
      | jstr s => exact absurd h (by simp)
      | jlist xs => exact absurd h (by simp)

theorem frame_owners {r r' : Record} (h : _migrate_owners r = .ok r')
    {k : String} (h1 : k ≠ "owner") (h2 : k ≠ "owners") (h3 : k ≠ "_internal") :
    lookupKey r' k = lookupKey r k := by
  unfold _migrate_owners at h
  cases hl : lookupKey r "owner" with
  | none => rw [hl] at h; injection h with h; rw [← h]
  | some o =>
    rw [hl] at h
    cases o with
    | jdict okvs =>
      obtain ⟨ov, _, h⟩ := except_bind_ok h
      injection h with h
      rw [← h, lookup_setKey_ne _ _ _ _ h3, lookup_setKey_ne _ _ _ _ h2,
        lookup_delKey_ne _ _ _ h1]
    | jnull => exact absurd (except_throw_ne_ok h) (fun f => f)
    | jbool b => exact absurd (except_throw_ne_ok h) (fun f => f)
    | jint n => exact absurd (except_throw_ne_ok h) (fun f => f)
    | jstr s => exact absurd (except_throw_ne_ok h) (fun f => f)
    | jlist xs => exact absurd (except_throw_ne_ok h) (fun f => f)

theorem frame_description {r r' : Record} (h : _migrate_description r = .ok r')
    {k : String} (h1 : k ≠ "description") : lookupKey r' k = lookupKey r k := by
  unfold _migrate_description at h
  by_cases hd : hasKey r "description"
  · rw [if_pos hd] at h; injection h with h; rw [← h]
  · rw [if_neg hd] at h; injection h with h; rw [← h, lookup_setKey_ne _ _ _ _ h1]

theorem frame_imprint {r r' : Record} (h : _migrate_imprint r = .ok r')
    {k : String} (h1 : k ≠ "imprint") (h2 : k ≠ "part_of") :
    lookupKey r' k = lookupKey r k := by
  unfold _migrate_imprint at h
  cases hl : lookupKey r "imprint" with
  | none => rw [hl] at h; injection h with h; rw [← h]
  | some imp =>
    rw [hl] at h
    obtain ⟨po, _, h⟩ := except_bind_ok h
    injection h with h
    rw [← h, lookup_delKey_ne _ _ _ h1, lookup_setKey_ne _ _ _ _ h2]

theorem frame_references {r r' : Record} (h : _migrate_references r = .ok r')
    {k : String} (h1 : k ≠ "references") : lookupKey r' k = lookupKey r k := by
  unfold _migrate_references at h
  cases hl : lookupKey r "references" with
  | none => rw [hl] at h; injection h with h; rw [← h]
  | some rv =>
    rw [hl] at h
    obtain ⟨rv', _, h⟩ := except_bind_ok h
    injection h with h
    rw [← h, lookup_setKey_ne _ _ _ _ h1]

theorem frame_communities {r r' : Record} (h : _migrate_communities r = .ok r')
    {k : String} (h1 : k ≠ "communities") : lookupKey r' k = lookupKey r k := by
  unfold _migrate_communities at h
  split at h
  · injection h with h; rw [← h]
  · split at h
    · obtain ⟨s, _, h⟩ := except_bind_ok h
      injection h with h
      rw [← h, lookup_setKey_ne _ _ _ _ h1]
    · injection h with h; rw [← h]

theorem frame_provisional {r r' : Record}
    (h : _migrate_provisional_communities r = .ok r') {k : String}
    (h1 : k ≠ "provisional_communities") : lookupKey r' k = lookupKey r k := by
  unfold _migrate_provisional_communities at h
  split at h
  · injection h with h; rw [← h]
  · split at h
    · split at h
      · obtain ⟨sa, _, h⟩ := except_bind_ok h
        obtain ⟨sb, _, h⟩ := except_bind_ok h
        injection h with h
        rw [← h, lookup_setKey_ne _ _ _ _ h1]
      · obtain ⟨sa, _, h⟩ := except_bind_ok h
        injection h with h
        rw [← h, lookup_setKey_ne _ _ _ _ h1]
    · injection h with h
      rw [← h, lookup_delKey_ne _ _ _ h1]

theorem frame_add_schema {r r' : Record} (h : _add_schema r = .ok r')
    {k : String} (h1 : k ≠ "$schema") : lookupKey r' k = lookupKey r k := by
  unfold _add_schema at h
  injection h with h
  rw [← h, lookup_setKey_ne _ _ _ _ h1]

theorem except_ok_bind {α β : Type} (a : α) (f : α → Except PyErr β) :
    ((Except.ok a : Except PyErr α) >>= f) = f a := rfl

theorem except_pure {α : Type} (a : α) : (pure a : Except PyErr α) = .ok a := rfl

theorem transform_steps {now : String} {r out : Record}
    (hs : hasKey r "$schema" = false)
    (h : transform_record now r = .ok out) :
    ∃ r1 r2 r3 r4 r5 r6 r7 r8 r9 r10 r11 r12,
      _remove_fields r = .ok r1 ∧
      _migrate_upload_type r1 = .ok r2 ∧
      _migrate_authors r2 = .ok r3 ∧
      _migrate_oai now r3 = .ok r4 ∧
      _migrate_grants r4 = .ok r5 ∧
      _migrate_meetings r5 = .ok r6 ∧
      _migrate_owners r6 = .ok r7 ∧
      _migrate_description r7 = .ok r8 ∧
      _migrate_imprint r8 = .ok r9 ∧
      _migrate_references r9 = .ok r10 ∧
      _migrate_communities r10 = .ok r11 ∧
      _migrate_provisional_communities r11 = .ok r12 ∧
      _add_schema r12 = .ok out := by
  unfold transform_record at h
  rw [if_neg (by rw [hs]; exact Bool.false_ne_true)] at h
  simp only [transformations, List.foldlM_cons, List.foldlM_nil] at h
  obtain ⟨r1, h1, h⟩ := except_bind_ok h
  obtain ⟨r2, h2, h⟩ := except_bind_ok h
  obtain ⟨r3, h3, h⟩ := except_bind_ok h
  obtain ⟨r4, h4, h⟩ := except_bind_ok h
  obtain ⟨r5, h5, h⟩ := except_bind_ok h
  obtain ⟨r6, h6, h⟩ := except_bind_ok h
  obtain ⟨r7, h7, h⟩ := except_bind_ok h
  obtain ⟨r8, h8, h⟩ := except_bind_ok h
  obtain ⟨r9, h9, h⟩ := except_bind_ok h
  obtain ⟨r10, h10, h⟩ := except_bind_ok h
  obtain ⟨r11, h11, h⟩ := except_bind_ok h
  obtain ⟨r12, h12, h⟩ := except_bind_ok h
  obtain ⟨r13, h13, h⟩ := except_bind_ok h
  injection h with h
  rw [h] at h13
  exact ⟨r1, r2, r3, r4, r5, r6, r7, r8, r9, r10, r11, r12,
    h1, h2, h3, h4, h5, h6, h7, h8, h9, h10, h11, h12, h13⟩

theorem transform_of_steps {now : String} {r r1 r2 r3 r4 r5 r6 r7 r8 r9 r10 r11 r12 out : Record}
    (hs : hasKey r "$schema" = false)
    (h1 : _remove_fields r = .ok r1)
    (h2 : _migrate_upload_type r1 = .ok r2)
    (h3 : _migrate_authors r2 = .ok r3)
    (h4 : _migrate_oai now r3 = .ok r4)
    (h5 : _migrate_grants r4 = .ok r5)
    (h6 : _migrate_meetings r5 = .ok r6)
    (h7 : _migrate_owners r6 = .ok r7)
    (h8 : _migrate_description r7 = .ok r8)
    (h9 : _migrate_imprint r8 = .ok r9)
    (h10 : _migrate_references r9 = .ok r10)
    (h11 : _migrate_communities r10 = .ok r11)
    (h12 : _migrate_provisional_communities r11 = .ok r12)
    (h13 : _add_schema r12 = .ok out) :
    transform_record now r = .ok out := by
  unfold transform_record
  rw [if_neg (by rw [hs]; exact Bool.false_ne_true)]
  simp only [transformations, List.foldlM_cons, List.foldlM_nil]
  rw [h1, except_ok_bind, h2, except_ok_bind, h3, except_ok_bind, h4, except_ok_bind,
    h5, except_ok_bind, h6, except_ok_bind, h7, except_ok_bind, h8, except_ok_bind,
    h9, except_ok_bind, h10, except_ok_bind, h11, except_ok_bind, h12, except_ok_bind,
    h13, except_ok_bind]
  rfl

theorem lookup_of_hasKey {r : Record} {k : String} (h : hasKey r k = true) :
    ∃ v, lookupKey r k = some v := by
  rw [hasKey_eq_isSome] at h
  cases hl : lookupKey r k with
  | none => rw [hl] at h; exact absurd h (by simp)
  | some v => exact ⟨v, rfl⟩

theorem hasKey_of_lookup {r : Record} {k : String} {v : JVal}
    (h : lookupKey r k = some v) : hasKey r k = true := by
  rw [hasKey_eq_isSome, h]
  rfl

theorem hasKey_setKey (r : Record) (k : String) (v : JVal) (k' : String) :
    hasKey (setKey r k v) k' = (decide (k' = k) || hasKey r k') := by
  by_cases h : k' = k
  · subst h
    rw [hasKey_eq_isSome, lookup_setKey_self]
    simp
  · rw [hasKey_eq_isSome, lookup_setKey_ne _ _ _ _ h, ← hasKey_eq_isSome]
    simp [h]

theorem hasKey_delKey (r : Record) (k k' : String) :
    hasKey (delKey r k) k' = (decide (k' ≠ k) && hasKey r k') := by
  by_cases h : k' = k
  · subst h
    rw [hasKey_eq_isSome, lookup_delKey_self]
    simp
  · rw [hasKey_eq_isSome, lookup_delKey_ne _ _ _ h, ← hasKey_eq_isSome]
    simp [h]

theorem upload_type_eq {r : Record} {ut : JVal}
    (hl : lookupKey r "upload_type" = some ut) :
    _migrate_upload_type r = .ok (delKey (setKey r "resource_type" ut) "upload_type") := by
  unfold _migrate_upload_type
  rw [hl]

theorem migrateAuthorEntry_ok {c : JVal} (h : okAuthorEntry c = true) :
    ∃ c', migrateAuthorEntry c = .ok c' := by
  cases c with
  | jdict kvs =>
    cases ha : lookupKey kvs "affiliation" with
    | none => exact ⟨.jdict kvs, by simp [migrateAuthorEntry, ha, except_pure]⟩
    | some av =>
      cases av with
      | jlist xs =>
        cases xs with
        | nil => simp [okAuthorEntry, ha] at h
        | cons x t =>
          exact ⟨.jdict (setKey kvs "affiliation" x),
            by simp [migrateAuthorEntry, ha, except_pure]⟩
      | jnull => exact ⟨.jdict kvs, by simp [migrateAuthorEntry, ha, except_pure]⟩
      | jbool b => exact ⟨.jdict kvs, by simp [migrateAuthorEntry, ha, except_pure]⟩
      | jint n => exact ⟨.jdict kvs, by simp [migrateAuthorEntry, ha, except_pure]⟩
      | jstr s => exact ⟨.jdict kvs, by simp [migrateAuthorEntry, ha, except_pure]⟩
      | jdict d => exact ⟨.jdict kvs, by simp [migrateAuthorEntry, ha, except_pure]⟩
  | jnull => simp [okAuthorEntry] at h
  | jbool b => simp [okAuthorEntry] at h
  | jint n => simp [okAuthorEntry] at h
  | jstr s => simp [okAuthorEntry] at h
  | jlist xs => simp [okAuthorEntry] at h

theorem mapM_authors_ok {cs : List JVal} (h : cs.all okAuthorEntry = true) :
    ∃ cs', cs.mapM migrateAuthorEntry = .ok cs' := by
  induction cs with
  | nil => exact ⟨[], rfl⟩
  | cons c cs ih =>
    simp only [List.all_cons, Bool.and_eq_true] at h
    obtain ⟨c', hc⟩ := migrateAuthorEntry_ok h.1
    obtain ⟨cs', hcs⟩ := ih h.2
    refine ⟨c' :: cs', ?_⟩
    rw [List.mapM_cons, hc, except_ok_bind, hcs, except_ok_bind, except_pure]

theorem authors_ok {r : Record} {cs : List JVal}
    (hl : lookupKey r "authors" = some (.jlist cs))
    (h : cs.all okAuthorEntry = true) :
    ∃ r', _migrate_authors r = .ok r' := by
  obtain ⟨cs', hcs⟩ := mapM_authors_ok h
  refine ⟨delKey (setKey r "creators" (.jlist cs')) "authors", ?_⟩
  simp only [_migrate_authors, hl, migrateAuthorsValue]
  rw [hcs, except_ok_bind, except_pure, except_ok_bind, except_pure]

theorem oai_ok {now : String} {r : Record}
    (h : (match lookupKey r "oai" with
          | none => true
          | some (.jdict okvs) => hasKey okvs "oai"
          | some _ => false) = true) :
    ∃ r', _migrate_oai now r = .ok r' := by
  cases hl : lookupKey r "oai" with
  | none => exact ⟨r, by simp [_migrate_oai, hl, except_pure]⟩
  | some oaiv =>
    rw [hl] at h
    cases oaiv with
    | jdict okvs =>
      obtain ⟨idv, hid⟩ := lookup_of_hasKey (by simpa using h)
      refine ⟨setKey (delKey r "oai") "_oai"
        (.jdict [("id", idv),
                 ("sets", normalizeScalar ((lookupKey okvs "indicator").getD (.jlist []))),
                 ("updated", .jstr now)]), ?_⟩
      simp [_migrate_oai, hl, hid, except_pure]
    | jnull => simp at h
    | jbool b => simp at h
    | jint n => simp at h
    | jstr s => simp at h
    | jlist xs => simp at h

theorem migrateGrantEntry_ok {x : JVal} (h : okGrant x = true) :
    ∃ y, migrateGrantEntry x = .ok y := by
  cases x with
  | jdict kvs =>
    obtain ⟨idv, hid⟩ := lookup_of_hasKey (by simpa [okGrant] using h)
    exact ⟨.jdict [("$ref", .jstr (grantUrl (pyStr idv)))],
      by simp [migrateGrantEntry, pyGetItem, hid, except_ok_bind, except_pure]⟩
  | jnull => simp [okGrant] at h
  | jbool b => simp [okGrant] at h
  | jint n => simp [okGrant] at h
  | jstr s => simp [okGrant] at h
  | jlist xs => simp [okGrant] at h

theorem mapM_grants_ok {gs : List JVal} (h : gs.all okGrant = true) :
    ∃ gs', gs.mapM migrateGrantEntry = .ok gs' := by
  induction gs with
  | nil => exact ⟨[], rfl⟩
  | cons g gs ih =>
    simp only [List.all_cons, Bool.and_eq_true] at h
    obtain ⟨g', hg⟩ := migrateGrantEntry_ok h.1
    obtain ⟨gs', hgs⟩ := ih h.2
    refine ⟨g' :: gs', ?_⟩
    rw [List.mapM_cons, hg, except_ok_bind, hgs, except_ok_bind, except_pure]

theorem grants_ok {r : Record}
    (h : (match lookupKey r "grants" with
          | none => true
          | some (.jlist gs) => gs.all okGrant
          | some _ => false) = true) :
    ∃ r', _migrate_grants r = .ok r' := by
  cases hl : lookupKey r "grants" with
  | none => exact ⟨r, by simp [_migrate_grants, hl, except_pure]⟩
  | some gv =>
    rw [hl] at h
    cases gv with
    | jlist gs =>
      obtain ⟨gs', hgs⟩ := mapM_grants_ok (by simpa using h)
      refine ⟨setKey r "grants" (.jlist gs'), ?_⟩
      simp only [_migrate_grants, hl, grantsValueOf, pyIter, except_ok_bind]
      rw [hgs, except_ok_bind, except_pure, except_ok_bind, except_pure]
    | jnull => simp at h
    | jbool b => simp at h
    | jint n => simp at h
    | jstr s => simp at h
    | jdict d => simp at h

theorem meetings_ok {r : Record}
    (h : (!hasKey r "conference_url" || !hasKey r "meetings" ||
          (match lookupKey r "meetings" with
           | some (.jdict _) => true
           | _ => false)) = true) :
    ∃ r', _migrate_meetings r = .ok r' := by
  cases hl : lookupKey r "conference_url" with
  | none => exact ⟨r, by simp [_migrate_meetings, hl]⟩
  | some cu =>
    have hc : hasKey r "conference_url" = true := hasKey_of_lookup hl
    cases hm : lookupKey r "meetings" with
    | none =>
      exact ⟨delKey (setKey r "meetings" (.jdict [("url", cu)])) "conference_url",
        by simp [_migrate_meetings, hl, hm]⟩
    | some mv =>
      have hmk : hasKey r "meetings" = true := hasKey_of_lookup hm
      rw [hc, hmk, hm] at h
      cases mv with
      | jdict kvs =>
        exact ⟨delKey (setKey r "meetings" (.jdict (setKey kvs "url" cu))) "conference_url",
          by simp [_migrate_meetings, hl, hm]⟩
      | jnull => simp at h
      | jbool b => simp at h
      | jint n => simp at h
      | jstr s => simp at h
      | jlist xs => simp at h

theorem ownersListOf_ok {okvs : List (String × JVal)} (h : okOwner (.jdict okvs) = true) :
    ∃ ov, ownersListOf okvs = .ok ov := by
  simp only [okOwner] at h
  by_cases ht : pyTruthy ((lookupKey okvs "id").getD .jnull)
  · rw [ht] at h
    simp only [Bool.not_true, Bool.false_or] at h
    cases hp : pyInt ((lookupKey okvs "id").getD .jnull) with
    | ok n =>
      exact ⟨.jlist [.jint n], by simp [ownersListOf, ht, hp, except_ok_bind, except_pure]⟩
    | error e => rw [hp] at h; simp [Except.toBool] at h
  · exact ⟨.jlist [], by simp [ownersListOf, ht, except_pure]⟩

theorem owners_ok {r : Record}
    (h : (match lookupKey r "owner" with
          | none => true
          | some o => okOwner o) = true) :
    ∃ r', _migrate_owners r = .ok r' := by
  cases hl : lookupKey r "owner" with
  | none => exact ⟨r, by simp [_migrate_owners, hl, except_pure]⟩
  | some o =>
    rw [hl] at h
    cases o with
    | jdict okvs =>
      obtain ⟨ov, hov⟩ := ownersListOf_ok (by simpa using h)
      exact ⟨setKey (setKey (delKey r "owner") "owners" ov) "_internal" (internalOf okvs),
        by simp [_migrate_owners, hl, hov, except_ok_bind, except_pure]⟩
    | jnull => simp [okOwner] at h
    | jbool b => simp [okOwner] at h
    | jint n => simp [okOwner] at h
    | jstr s => simp [okOwner] at h
    | jlist xs => simp [okOwner] at h

theorem description_ok (r : Record) : ∃ r', _migrate_description r = .ok r' := by
  unfold _migrate_description
  by_cases h : hasKey r "description"
  · exact ⟨r, by rw [if_pos h]⟩
  · exact ⟨setKey r "description" (.jstr ""), by rw [if_neg h]⟩

theorem foldlM_references_ok {xs : List JVal} (h : xs.all okReference = true) :
    ∀ acc : List JVal, ∃ ys, xs.foldlM referenceStep acc = .ok ys := by
  induction xs with
  | nil => exact fun acc => ⟨acc, rfl⟩
  | cons x xs ih =>
    intro acc
    simp only [List.all_cons, Bool.and_eq_true] at h
    cases x with
    | jdict kvs =>
      obtain ⟨ys, hys⟩ := ih h.2
        (if pyTruthy ((lookupKey kvs "raw_reference").getD .jnull)
         then acc ++ [.jdict [("raw_reference", (lookupKey kvs "raw_reference").getD .jnull)]]
         else acc)
      refine ⟨ys, ?_⟩
      rw [List.foldlM_cons]
      show (referenceStep acc (.jdict kvs) >>= fun acc' => xs.foldlM referenceStep acc') = _
      rw [show referenceStep acc (.jdict kvs) =
        .ok (if pyTruthy ((lookupKey kvs "raw_reference").getD .jnull)
             then acc ++ [.jdict [("raw_reference", (lookupKey kvs "raw_reference").getD .jnull)]]
             else acc) from rfl, except_ok_bind, hys]
    | jnull => simp [okReference] at h
    | jbool b => simp [okReference] at h
    | jint n => simp [okReference] at h
    | jstr s => simp [okReference] at h
    | jlist l => simp [okReference] at h

theorem references_ok {r : Record}
    (h : (match lookupKey r "references" with
          | none => true
          | some (.jlist xs) => xs.all okReference
          | some _ => false) = true) :
    ∃ r', _migrate_references r = .ok r' := by
  cases hl : lookupKey r "references" with
  | none => exact ⟨r, by simp [_migrate_references, hl, except_pure]⟩
  | some rv =>
    rw [hl] at h
    cases rv with
    | jlist xs =>
      obtain ⟨ys, hys⟩ := foldlM_references_ok (by simpa using h) []
      refine ⟨setKey r "references" (.jlist ys), ?_⟩
      simp only [_migrate_references, hl, referencesValueOf, pyIter, except_ok_bind]
      rw [hys, except_ok_bind, except_pure, except_ok_bind, except_pure]
    | jnull => simp at h
    | jbool b => simp at h
    | jint n => simp at h
    | jstr s => simp at h
    | jdict d => simp at h

theorem imprintLoopStep_ok (kvs : List (String × JVal)) (po : Record) (k : String)
    (hpo : hasKey po k = false) :
    imprintLoopStep (.jdict kvs) po k =
      .ok (if hasKey kvs k then setKey po k ((lookupKey kvs k).getD .jnull) else po) := by
  unfold imprintLoopStep
  by_cases hk : hasKey kvs k
  · obtain ⟨v, hv⟩ := lookup_of_hasKey hk
    simp [pyContainsKey, hk, hpo, pyGetItem, hv, except_ok_bind, except_pure]
  · simp [pyContainsKey, hk, except_ok_bind, except_pure]

theorem imprintPartOf_dict_ok (kvs : List (String × JVal)) :
    ∃ po, imprintPartOf (.jdict kvs) = .ok po := by
  unfold imprintPartOf
  rw [List.foldlM_cons,
    imprintLoopStep_ok kvs [] "publisher" rfl, except_ok_bind]
  by_cases h1 : hasKey kvs "publisher" <;> simp only [h1, if_true, if_false]
  all_goals {
    rw [List.foldlM_cons, imprintLoopStep_ok kvs _ "title" (by simp [hasKey, setKey]),
      except_ok_bind]
    by_cases h2 : hasKey kvs "title" <;> simp only [h2, if_true, if_false]
    all_goals {
      rw [List.foldlM_cons, imprintLoopStep_ok kvs _ "year" (by simp [hasKey, setKey]),
        except_ok_bind]
      by_cases h3 : hasKey kvs "year" <;> simp only [h3, if_true, if_false]
      all_goals {
        rw [List.foldlM_nil]
        exact ⟨_, rfl⟩
      }
    }
  }

theorem imprint_ok {r : Record}
    (h : (match lookupKey r "imprint" with
          | none => true
          | some (.jdict _) => true
          | some _ => false) = true) :
    ∃ r', _migrate_imprint r = .ok r' := by
  cases hl : lookupKey r "imprint" with
  | none => exact ⟨r, by simp [_migrate_imprint, hl]⟩
  | some imp =>
    rw [hl] at h
    cases imp with
    | jdict kvs =>
      obtain ⟨po, hpo⟩ := imprintPartOf_dict_ok kvs
      refine ⟨delKey (setKey r "part_of" (.jdict po)) "imprint", ?_⟩
      simp only [_migrate_imprint, hl]
      rw [hpo, except_ok_bind, except_pure]
    | jnull => simp at h
    | jbool b => simp at h
    | jint n => simp at h
    | jstr s => simp at h
    | jlist xs => simp at h

theorem all_hashable_dedup {xs : List JVal} (h : xs.all hashable = true) :
    xs.dedup.all hashable = true := by
  rw [List.all_eq_true] at h ⊢
  intro x hx
  exact h x (List.mem_dedup.mp hx)

theorem pySetOf_ok {v : JVal} (h : okCommValue v = true) :
    ∃ s, pySetOf v = .ok s ∧ s.all hashable = true := by
  cases v with
  | jstr str =>
    have hall : (str.data.map (fun c => JVal.jstr (String.mk [c]))).all hashable = true := by
      rw [List.all_eq_true]
      intro x hx
      obtain ⟨c, _, hc⟩ := List.mem_map.mp hx
      rw [← hc]
      rfl
    refine ⟨(str.data.map (fun c => JVal.jstr (String.mk [c]))).dedup, ?_, all_hashable_dedup hall⟩
    simp only [pySetOf, pyIter, except_ok_bind]
    rw [if_pos hall]
    rfl
  | jlist xs =>
    have hall : xs.all hashable = true := by simpa [okCommValue] using h
    refine ⟨xs.dedup, ?_, all_hashable_dedup hall⟩
    simp only [pySetOf, pyIter, except_ok_bind]
    rw [if_pos hall]
    rfl
  | jnull => simp [okCommValue] at h
  | jbool b => simp [okCommValue] at h
  | jint n => simp [okCommValue] at h
  | jdict d => simp [okCommValue] at h

theorem okCommValue_normalizeScalar {v : JVal} (h : okCommValue v = true) :
    okCommValue (normalizeScalar v) = true := by
  cases v with
  | jstr s => simp [normalizeScalar, isStr, okCommValue, hashable]
  | jlist xs => simpa [normalizeScalar, isStr] using h
  | jnull => simp [okCommValue] at h
  | jbool b => simp [okCommValue] at h
  | jint n => simp [okCommValue] at h
  | jdict d => simp [okCommValue] at h

theorem communities_invariant_ok {r : Record}
    (h : (match lookupKey r "communities" with
          | none => true
          | some c => okCommValue c) = true) :
    ∃ r', _migrate_communities r = .ok r' ∧
      (match lookupKey r' "communities" with
       | none => true
       | some c => okCommValue c) = true := by
  cases hl : lookupKey r "communities" with
  | none =>
    refine ⟨r, by simp [_migrate_communities, hl, except_pure], ?_⟩
    rw [hl]
  | some c0 =>
    rw [hl] at h
    by_cases ht : pyTruthy (normalizeScalar c0)
    · obtain ⟨s, hset, hall⟩ := pySetOf_ok (okCommValue_normalizeScalar (by simpa using h))
      refine ⟨setKey r "communities" (.jlist s), ?_, ?_⟩
      · simp only [_migrate_communities, hl, ht, if_true]
        rw [hset, except_ok_bind, except_pure]
      · rw [lookup_setKey_self]
        simpa [okCommValue] using hall
    · refine ⟨r, ?_, ?_⟩
      · simp [_migrate_communities, hl, ht, except_pure]
      · rw [hl]
        simpa using h

theorem provisional_ok {r : Record}
    (hp : (match lookupKey r "provisional_communities" with
           | none => true
           | some p => okCommValue p) = true)
    (hc : (match lookupKey r "communities" with
           | none => true
           | some c => okCommValue c) = true) :
    ∃ r', _migrate_provisional_communities r = .ok r' := by
  cases hl : lookupKey r "provisional_communities" with
  | none => exact ⟨r, by simp [_migrate_provisional_communities, hl, except_pure]⟩
  | some p0 =>
    rw [hl] at hp
    by_cases ht : pyTruthy (normalizeScalar p0)
    · obtain ⟨sa, hsa, _⟩ := pySetOf_ok (okCommValue_normalizeScalar (by simpa using hp))
      cases hcm : lookupKey r "communities" with
      | none =>
        refine ⟨setKey r "provisional_communities" (.jlist sa), ?_⟩
        simp only [_migrate_provisional_communities, hl, ht, if_true, hcm]
        rw [hsa, except_ok_bind, except_pure]
      | some cv =>
        rw [hcm] at hc
        obtain ⟨sb, hsb, _⟩ := pySetOf_ok (by simpa using hc)
        refine ⟨setKey r "provisional_communities"
          (.jlist (sa.filter (fun x => decide (x ∉ sb)))), ?_⟩
        simp only [_migrate_provisional_communities, hl, ht, if_true, hcm]
        rw [hsa, except_ok_bind, hsb, except_ok_bind, except_pure]
    · refine ⟨delKey r "provisional_communities", ?_⟩
      simp [_migrate_provisional_communities, hl, ht, except_pure]

theorem authors_ok_pre {r : Record}
    (h : (match lookupKey r "authors" with
          | some (.jlist cs) => cs.all okAuthorEntry
          | _ => false) = true) :
    ∃ r', _migrate_authors r = .ok r' := by
  cases hl : lookupKey r "authors" with
  | none => rw [hl] at h; simp at h
  | some av =>
    rw [hl] at h
    cases av with
    | jlist cs => exact authors_ok hl (by simpa using h)
    | jnull => simp at h
    | jbool b => simp at h
    | jint n => simp at h
    | jstr s => simp at h
    | jdict d => simp at h

theorem transform_success {now : String} {r : Record}
    (hs : hasKey r "$schema" = false) (hpre : transformPre r = true) :
    ∃ out, transform_record now r = .ok out ∧
      lookupKey out "resource_type" = lookupKey r "upload_type" ∧
      hasKey out "upload_type" = false := by
  simp only [transformPre, Bool.and_eq_true] at hpre
  obtain ⟨⟨⟨⟨⟨⟨⟨⟨⟨h_ut, h_auth⟩, h_oai⟩, h_gr⟩, h_meet⟩, h_own⟩, h_imp⟩, h_ref⟩,
    h_comm⟩, h_prov⟩ := hpre
  obtain ⟨ut, hut⟩ := lookup_of_hasKey h_ut
  obtain ⟨r1, h1⟩ : ∃ r1, _remove_fields r = .ok r1 := ⟨_, rfl⟩
  have e1 : ∀ k : String, k ∉ removedKeys → lookupKey r1 k = lookupKey r k :=
    fun k hk => frame_remove_fields h1 hk
  have hut1 : lookupKey r1 "upload_type" = some ut := by
    rw [e1 "upload_type" (by decide), hut]
  obtain ⟨r2, h2, hrt2, hut2⟩ : ∃ r2, _migrate_upload_type r1 = .ok r2 ∧
      lookupKey r2 "resource_type" = some ut ∧ lookupKey r2 "upload_type" = none := by
    refine ⟨_, upload_type_eq hut1, ?_, ?_⟩
    · rw [lookup_delKey_ne _ _ _ (by decide), lookup_setKey_self]
    · exact lookup_delKey_self _ _
  have e2 : ∀ k : String, k ≠ "resource_type" → k ≠ "upload_type" →
      lookupKey r2 k = lookupKey r1 k := fun k ha hb => frame_upload_type h2 ha hb
  obtain ⟨r3, h3⟩ := @authors_ok_pre r2 (by
    rw [e2 "authors" (by decide) (by decide), e1 "authors" (by decide)]
    exact h_auth)
  have e3 : ∀ k : String, k ≠ "creators" → k ≠ "authors" →
      lookupKey r3 k = lookupKey r2 k := fun k ha hb => frame_authors h3 ha hb
  obtain ⟨r4, h4⟩ := @oai_ok now r3 (by
    rw [e3 "oai" (by decide) (by decide), e2 "oai" (by decide) (by decide),
      e1 "oai" (by decide)]
    exact h_oai)
  have e4 : ∀ k : String, k ≠ "oai" → k ≠ "_oai" → lookupKey r4 k = lookupKey r3 k :=
    fun k ha hb => frame_oai h4 ha hb
  obtain ⟨r5, h5⟩ := @grants_ok r4 (by
    rw [e4 "grants" (by decide) (by decide), e3 "grants" (by decide) (by decide),
      e2 "grants" (by decide) (by decide), e1 "grants" (by decide)]
    exact h_gr)
  have e5 : ∀ k : String, k ≠ "grants" → lookupKey r5 k = lookupKey r4 k :=
    fun k ha => frame_grants h5 ha
  have ecu : lookupKey r5 "conference_url" = lookupKey r "conference_url" := by
    rw [e5 _ (by decide), e4 _ (by decide) (by decide), e3 _ (by decide) (by decide),
      e2 _ (by decide) (by decide), e1 _ (by decide)]
  have emt : lookupKey r5 "meetings" = lookupKey r "meetings" := by
    rw [e5 _ (by decide), e4 _ (by decide) (by decide), e3 _ (by decide) (by decide),
      e2 _ (by decide) (by decide), e1 _ (by decide)]
  obtain ⟨r6, h6⟩ := @meetings_ok r5 (by
    rw [hasKey_eq_isSome, hasKey_eq_isSome, ecu, emt, ← hasKey_eq_isSome,
      ← hasKey_eq_isSome]
    exact h_meet)
  have e6 : ∀ k : String, k ≠ "conference_url" → k ≠ "meetings" →
      lookupKey r6 k = lookupKey r5 k := fun k ha hb => frame_meetings h6 ha hb
  obtain ⟨r7, h7⟩ := @owners_ok r6 (by
    rw [e6 _ (by decide) (by decide), e5 _ (by decide), e4 _ (by decide) (by decide),
      e3 _ (by decide) (by decide), e2 _ (by decide) (by decide), e1 _ (by decide)]
    exact h_own)
  have e7 : ∀ k : String, k ≠ "owner" → k ≠ "owners" → k ≠ "_internal" →
      lookupKey r7 k = lookupKey r6 k := fun k ha hb hc => frame_owners h7 ha hb hc
  obtain ⟨r8, h8⟩ := description_ok r7
  have e8 : ∀ k : String, k ≠ "description" → lookupKey r8 k = lookupKey r7 k :=
    fun k ha => frame_description h8 ha
  obtain ⟨r9, h9⟩ := @imprint_ok r8 (by
    rw [e8 _ (by decide), e7 _ (by decide) (by decide) (by decide),
      e6 _ (by decide) (by decide), e5 _ (by decide), e4 _ (by decide) (by decide),
      e3 _ (by decide) (by decide), e2 _ (by decide) (by decide), e1 _ (by decide)]
    exact h_imp)
  have e9 : ∀ k : String, k ≠ "imprint" → k ≠ "part_of" →
      lookupKey r9 k = lookupKey r8 k := fun k ha hb => frame_imprint h9 ha hb
  obtain ⟨r10, h10⟩ := @references_ok r9 (by
    rw [e9 _ (by decide) (by decide), e8 _ (by decide),
      e7 _ (by decide) (by decide) (by decide), e6 _ (by decide) (by decide),
      e5 _ (by decide), e4 _ (by decide) (by decide), e3 _ (by decide) (by decide),
      e2 _ (by decide) (by decide), e1 _ (by decide)]
    exact h_ref)
  have e10 : ∀ k : String, k ≠ "references" → lookupKey r10 k = lookupKey r9 k :=
    fun k ha => frame_references h10 ha
  obtain ⟨r11, h11, hc11⟩ := @communities_invariant_ok r10 (by
    rw [e10 _ (by decide), e9 _ (by decide) (by decide), e8 _ (by decide),
      e7 _ (by decide) (by decide) (by decide), e6 _ (by decide) (by decide),
      e5 _ (by decide), e4 _ (by decide) (by decide), e3 _ (by decide) (by decide),
      e2 _ (by decide) (by decide), e1 _ (by decide)]
    exact h_comm)
  have e11 : ∀ k : String, k ≠ "communities" → lookupKey r11 k = lookupKey r10 k :=
    fun k ha => frame_communities h11 ha
  obtain ⟨r12, h12⟩ := @provisional_ok r11 (by
    rw [e11 _ (by decide), e10 _ (by decide), e9 _ (by decide) (by decide),
      e8 _ (by decide), e7 _ (by decide) (by decide) (by decide),
      e6 _ (by decide) (by decide), e5 _ (by decide), e4 _ (by decide) (by decide),
      e3 _ (by decide) (by decide), e2 _ (by decide) (by decide), e1 _ (by decide)]
    exact h_prov) hc11
  have e12 : ∀ k : String, k ≠ "provisional_communities" →
      lookupKey r12 k = lookupKey r11 k := fun k ha => frame_provisional h12 ha
  have h13 : _add_schema r12 = .ok (setKey r12 "$schema" (.jstr schemaUrl)) := rfl
  refine ⟨setKey r12 "$schema" (.jstr schemaUrl),
    transform_of_steps hs h1 h2 h3 h4 h5 h6 h7 h8 h9 h10 h11 h12 h13, ?_, ?_⟩
  · rw [lookup_setKey_ne _ _ _ _ (by decide), e12 _ (by decide), e11 _ (by decide),
      e10 _ (by decide), e9 _ (by decide) (by decide), e8 _ (by decide),
      e7 _ (by decide) (by decide) (by decide), e6 _ (by decide) (by decide),
      e5 _ (by decide), e4 _ (by decide) (by decide), e3 _ (by decide) (by decide),
      hrt2, hut]
  · rw [hasKey_eq_isSome, lookup_setKey_ne _ _ _ _ (by decide), e12 _ (by decide),
      e11 _ (by decide), e10 _ (by decide), e9 _ (by decide) (by decide),
      e8 _ (by decide), e7 _ (by decide) (by decide) (by decide),
      e6 _ (by decide) (by decide), e5 _ (by decide), e4 _ (by decide) (by decide),
      e3 _ (by decide) (by decide), hut2]
    rfl

theorem except_error_bind {α β : Type} (e : PyErr) (f : α → Except PyErr β) :
    ((Except.error e : Except PyErr α) >>= f) = .error e := rfl

theorem imprintLoopStep_no_guard (imp : JVal) (po : Record) (k : String)
    (hpo : hasKey po k = false) :
    (∃ e, imprintLoopStep imp po k = .error e ∧ e ≠ .exnMsg "Cannot migrate imprint") ∨
    imprintLoopStep imp po k = .ok po ∨
    (∃ v, imprintLoopStep imp po k = .ok (setKey po k v)) := by
  unfold imprintLoopStep
  cases imp with
  | jdict kvs =>
    by_cases hk : hasKey kvs k
    · cases hv : lookupKey kvs k with
      | none =>
        rw [hasKey_eq_isSome, hv] at hk
        simp at hk
      | some v =>
        right; right
        exact ⟨v, by simp [pyContainsKey, hk, hpo, pyGetItem, hv, except_ok_bind, except_pure]⟩
    · right; left
      simp [pyContainsKey, hk, except_ok_bind, except_pure]
  | jlist xs =>
    by_cases hk : xs.contains (.jstr k)
    · have hk' : JVal.jstr k ∈ xs := by simpa using hk
      left
      refine ⟨.typeError "value is not str-subscriptable", ?_, by simp⟩
      simp [pyContainsKey, hk', hpo, pyGetItem, except_ok_bind, except_error_bind]
    · have hk' : JVal.jstr k ∉ xs := by simpa using hk
      right; left
      simp [pyContainsKey, hk', except_ok_bind, except_pure]
  | jstr str =>
    by_cases hk : strHasSub str k
    · left
      refine ⟨.typeError "value is not str-subscriptable", ?_, by simp⟩
      simp [pyContainsKey, hk, hpo, pyGetItem, except_ok_bind, except_error_bind]
    · right; left
      simp [pyContainsKey, hk, except_ok_bind, except_pure]
  | jnull =>
    left
    exact ⟨.typeError "argument is not iterable", by simp [pyContainsKey, except_error_bind],
      by simp⟩
  | jbool b =>
    left
    exact ⟨.typeError "argument is not iterable", by simp [pyContainsKey, except_error_bind],
      by simp⟩
  | jint n =>
    left
    exact ⟨.typeError "argument is not iterable", by simp [pyContainsKey, except_error_bind],
      by simp⟩

theorem imprint_fold_no_guard (imp : JVal) :
    ∀ (ks : List String) (po : Record),
      (∀ k ∈ ks, hasKey po k = false) → ks.Nodup →
      ks.foldlM (imprintLoopStep imp) po ≠ .error (.exnMsg "Cannot migrate imprint") := by
  intro ks
  induction ks with
  | nil =>
    intro po _ _
    rw [List.foldlM_nil]
    exact fun hc => Except.noConfusion hc
  | cons k ks ih =>
    intro po hpo hnd
    rw [List.foldlM_cons]
    rcases imprintLoopStep_no_guard imp po k (hpo k (List.mem_cons_self _ _))
      with ⟨e, he, hne⟩ | h | ⟨v, h⟩
    · rw [he, except_error_bind]
      intro hc
      injection hc with hc
      exact hne hc
    · rw [h, except_ok_bind]
      exact ih po (fun k' hk' => hpo k' (List.mem_cons_of_mem _ hk')) (List.Nodup.of_cons hnd)
    · rw [h, except_ok_bind]
      refine ih (setKey po k v) ?_ (List.Nodup.of_cons hnd)
      intro k' hk'
      rw [hasKey_setKey]
      have hne' : k' ≠ k := fun he' => (List.nodup_cons.mp hnd).1 (he' ▸ hk')
      simp [hne', hpo k' (List.mem_cons_of_mem _ hk')]

theorem transform_adds_schema {now : String} {r out : Record}
    (hs : hasKey r "$schema" = false) (h : transform_record now r = .ok out) :
    lookupKey out "$schema" = some (.jstr schemaUrl) := by
  obtain ⟨r1, r2, r3, r4, r5, r6, r7, r8, r9, r10, r11, r12,
    _, _, _, _, _, _, _, _, _, _, _, _, h13⟩ := transform_steps hs h
  unfold _add_schema at h13
  injection h13 with h13
  rw [← h13, lookup_setKey_self]

theorem transform_output_has_schema {now : String} {r out : Record}
    (hs : hasKey r "$schema" = false) (h : transform_record now r = .ok out) :
    hasKey out "$schema" = true := by
  rw [hasKey_eq_isSome, transform_adds_schema hs h]
  rfl

theorem pySetOf_jlist {xs : List JVal} (h : xs.all hashable = true) :
    pySetOf (.jlist xs) = .ok xs.dedup := by
  simp only [pySetOf, pyIter, except_ok_bind]
  rw [if_pos h]
  rfl

theorem communities_step_value {r10 r11 : Record} {cs : List JVal}
    (hc10 : lookupKey r10 "communities" = some (.jlist cs))
    (hne : cs ≠ []) (hhash : cs.all hashable = true)
    (h11 : _migrate_communities r10 = .ok r11) :
    r11 = setKey r10 "communities" (.jlist cs.dedup) := by
  have htr : pyTruthy (normalizeScalar (.jlist cs)) = true := by
    cases cs with
    | nil => exact absurd rfl hne
    | cons c cs' => rfl
  have h11' : _migrate_communities r10 = .ok (setKey r10 "communities" (.jlist cs.dedup)) := by
    simp only [_migrate_communities, hc10]
    rw [if_pos htr, show normalizeScalar (JVal.jlist cs) = .jlist cs from rfl,
      pySetOf_jlist hhash, except_ok_bind, except_pure]
  rw [h11] at h11'
  exact Except.ok.inj h11' 

theorem provisional_step_value {r11 r12 : Record} {ps : List JVal} {cv : JVal}
    (hp11 : lookupKey r11 "provisional_communities" = some (.jlist ps))
    (hc11 : lookupKey r11 "communities" = some cv)
    (hne : ps ≠ []) (hhash : ps.all hashable = true)
    {sb : List JVal} (hsb : pySetOf cv = .ok sb)
    (h12 : _migrate_provisional_communities r11 = .ok r12) :
    r12 = setKey r11 "provisional_communities"
      (.jlist (ps.dedup.filter (fun x => decide (x ∉ sb)))) := by
  have htr : pyTruthy (normalizeScalar (.jlist ps)) = true := by
    cases ps with
    | nil => exact absurd rfl hne
    | cons p ps' => rfl
  have h12' : _migrate_provisional_communities r11 =
      .ok (setKey r11 "provisional_communities"
        (.jlist (ps.dedup.filter (fun x => decide (x ∉ sb))))) := by
    simp only [_migrate_provisional_communities, hp11]
    rw [if_pos htr]
    simp only [hc11]
    rw [show normalizeScalar (JVal.jlist ps) = .jlist ps from rfl, pySetOf_jlist hhash,
      except_ok_bind, hsb, except_ok_bind, except_pure]
  rw [h12] at h12'
  exact Except.ok.inj h12' 

theorem except_throw {α : Type} (e : PyErr) : (throw e : Except PyErr α) = .error e := rfl

theorem mapM_authors_indexError {cs : List JVal}
    (hdicts : ∀ c ∈ cs, ∃ kvs, c = .jdict kvs)
    (hempty : ∃ c ∈ cs, ∃ kvs, c = .jdict kvs ∧
       lookupKey kvs "affiliation" = some (.jlist [])) :
    cs.mapM migrateAuthorEntry = .error .indexError := by
  induction cs with
  | nil =>
    obtain ⟨c, hc, _⟩ := hempty
    exact absurd hc (List.not_mem_nil c)
  | cons c cs ih =>
    rw [List.mapM_cons]
    obtain ⟨kvs, hckvs⟩ := hdicts c (List.mem_cons_self _ _)
    by_cases hcEmpty : lookupKey kvs "affiliation" = some (.jlist [])
    · rw [hckvs, show migrateAuthorEntry (.jdict kvs) = .error .indexError from by
        simp [migrateAuthorEntry, hcEmpty, except_throw], except_error_bind]
    · have hhd : ∃ c', migrateAuthorEntry c = .ok c' := by
        rw [hckvs]
        cases haff : lookupKey kvs "affiliation" with
        | none => exact ⟨.jdict kvs, by simp [migrateAuthorEntry, haff, except_pure]⟩
        | some av =>
          cases av with
          | jlist xs =>
            cases xs with
            | nil => exact absurd haff hcEmpty
            | cons x t =>
              exact ⟨.jdict (setKey kvs "affiliation" x),
                by simp [migrateAuthorEntry, haff, except_pure]⟩
          | jnull => exact ⟨.jdict kvs, by simp [migrateAuthorEntry, haff, except_pure]⟩
          | jbool b => exact ⟨.jdict kvs, by simp [migrateAuthorEntry, haff, except_pure]⟩
          | jint n => exact ⟨.jdict kvs, by simp [migrateAuthorEntry, haff, except_pure]⟩
          | jstr s => exact ⟨.jdict kvs, by simp [migrateAuthorEntry, haff, except_pure]⟩
          | jdict d => exact ⟨.jdict kvs, by simp [migrateAuthorEntry, haff, except_pure]⟩
      obtain ⟨c', hc'⟩ := hhd
      rw [hc', except_ok_bind]
      have hempty' : ∃ c0 ∈ cs, ∃ kvs0, c0 = .jdict kvs0 ∧
          lookupKey kvs0 "affiliation" = some (.jlist []) := by
        obtain ⟨c0, hc0mem, kvs0, hc0, haff0⟩ := hempty
        rcases List.mem_cons.mp hc0mem with hh | hh
        · exfalso
          rw [hh, hckvs] at hc0
          injection hc0 with hc0
          rw [← hc0] at haff0
          exact hcEmpty haff0
        · exact ⟨c0, hh, kvs0, hc0, haff0⟩
      rw [ih (fun c0 hc0 => hdicts c0 (List.mem_cons_of_mem _ hc0)) hempty',
        except_error_bind]

/-- C2: `transform_record` is idempotent: whenever it succeeds on a record,
applying it again (at any later clock reading) to the result returns the
result unchanged, because the `$schema` key added by the final step makes
the entry guard return early. -/
theorem transform_record_idempotent (now now2 : String) (r out : Record)
    (h : transform_record now r = .ok out) :
    transform_record now2 out = .ok out := by
  by_cases hs : hasKey r "$schema"
  · unfold transform_record at h
    rw [if_pos hs] at h
    have hro : r = out := Except.ok.inj h
    unfold transform_record
    rw [if_pos (hro ▸ hs)]
  · have hs' : hasKey r "$schema" = false := by simpa using hs
    have hos := transform_output_has_schema hs' h
    unfold transform_record
    rw [if_pos hos]

/-- C2 witness: a concrete transformed record is a fixed point of the
transform. -/
theorem transform_record_idempotent_witness :
    transform_record "t2"
      [("resource_type", JVal.jstr "p"), ("creators", .jlist []),
       ("description", .jstr ""), ("$schema", .jstr schemaUrl)] =
    .ok [("resource_type", JVal.jstr "p"), ("creators", .jlist []),
       ("description", .jstr ""), ("$schema", .jstr schemaUrl)] :=
  transform_record_idempotent "t1" "t2"
    [("upload_type", .jstr "p"), ("authors", .jlist [])]
    [("resource_type", JVal.jstr "p"), ("creators", .jlist []),
     ("description", .jstr ""), ("$schema", .jstr schemaUrl)]
    (by decide)

/-- C5: the `Cannot migrate imprint` collision guard is unreachable: for
every record, `_migrate_imprint` never raises that exception, because
`part_of` is freshly created empty and the three copied keys are distinct,
each considered once. -/
theorem imprint_guard_unreachable (r : Record) :
    _migrate_imprint r ≠ .error (.exnMsg "Cannot migrate imprint") := by
  cases hl : lookupKey r "imprint" with
  | none =>
    simp only [_migrate_imprint, hl]
    exact fun hc => Except.noConfusion hc
  | some imp =>
    simp only [_migrate_imprint, hl]
    intro hc
    cases hp : imprintPartOf imp with
    | ok po =>
      rw [hp, except_ok_bind] at hc
      exact Except.noConfusion hc
    | error e =>
      rw [hp, except_error_bind] at hc
      injection hc with hc
      unfold imprintPartOf at hp
      rw [hc] at hp
      exact imprint_fold_no_guard imp ["publisher", "title", "year"] []
        (fun k _ => rfl) (by decide) hp

/-- C9 counterexample: a record already carrying `$schema` with a value
other than the fixed URI is returned unchanged, so the output does not
carry the fixed URI. -/
theorem schema_invariant_counterexample :
    transform_record "t0" [("$schema", JVal.jint 42)] =
      .ok [("$schema", JVal.jint 42)] ∧
    lookupKey [("$schema", JVal.jint 42)] "$schema" ≠ some (.jstr schemaUrl) := by
  constructor
  · decide
  · decide

/-- C9 (amended): for every input record not already carrying `$schema` on
which `transform_record` succeeds, the output contains `$schema` with the
fixed URI value; and presence of `$schema` in the input is the sole
condition under which the transform is a no-op. -/
theorem schema_invariant_amended :
    (∀ (now : String) (r out : Record), hasKey r "$schema" = false →
       transform_record now r = .ok out →
       lookupKey out "$schema" = some (.jstr schemaUrl)) ∧
    (∀ (now : String) (r : Record),
       transform_record now r = .ok r ↔ hasKey r "$schema" = true) := by
  refine ⟨fun now r out hs h => transform_adds_schema hs h, fun now r => ⟨?_, ?_⟩⟩
  · intro h
    by_cases hs : hasKey r "$schema"
    · exact hs
    · have hs' : hasKey r "$schema" = false := by simpa using hs
      exact absurd (transform_output_has_schema hs' h)
        (by rw [hs']; exact Bool.false_ne_true)
  · intro hs
    unfold transform_record
    rw [if_pos hs]

/-- C9 witness: the amended invariant at a concrete fresh record and a
concrete already-migrated record. -/
theorem schema_invariant_amended_witness :
    lookupKey [("resource_type", JVal.jstr "p"), ("creators", .jlist []),
       ("description", .jstr ""), ("$schema", .jstr schemaUrl)] "$schema" =
      some (.jstr schemaUrl) ∧
    transform_record "t0" [("$schema", JVal.jstr "x")] =
      .ok [("$schema", JVal.jstr "x")] :=
  ⟨schema_invariant_amended.1 "t1"
      [("upload_type", .jstr "p"), ("authors", .jlist [])]
      [("resource_type", JVal.jstr "p"), ("creators", .jlist []),
       ("description", .jstr ""), ("$schema", .jstr schemaUrl)]
      (by decide) (by decide),
   (schema_invariant_amended.2 "t0" [("$schema", JVal.jstr "x")]).mpr (by decide)⟩

/-- C4: with `$schema` absent, `transform_record` raises the
`Exception(record)` of `_migrate_upload_type` whenever `upload_type` is
missing, and succeeds whenever `upload_type` is present and the remaining
steps' preconditions `transformPre` hold, with output `resource_type`
equal to the input's `upload_type` and the `upload_type` key gone. -/
theorem transform_required_fields (now : String) (r : Record)
    (hs : hasKey r "$schema" = false) :
    (hasKey r "upload_type" = false →
       transform_record now r = .error (.exnRecord (removedKeys.foldl delKey r))) ∧
    (transformPre r = true →
       ∃ out, transform_record now r = .ok out ∧
         lookupKey out "resource_type" = lookupKey r "upload_type" ∧
         hasKey out "upload_type" = false) := by
  constructor
  · intro hut
    unfold transform_record
    rw [if_neg (by rw [hs]; exact Bool.false_ne_true)]
    simp only [transformations, List.foldlM_cons]
    rw [show _remove_fields r = .ok (removedKeys.foldl delKey r) from rfl, except_ok_bind]
    have hut' : lookupKey (removedKeys.foldl delKey r) "upload_type" = none := by
      rw [lookup_foldl_delKey _ _ _ (by decide)]
      cases hl : lookupKey r "upload_type" with
      | none => rfl
      | some v => rw [hasKey_eq_isSome, hl] at hut; simp at hut
    rw [show _migrate_upload_type (removedKeys.foldl delKey r) =
        .error (.exnRecord (removedKeys.foldl delKey r)) from by
      unfold _migrate_upload_type
      rw [hut'], except_error_bind]
  · intro hpre
    exact transform_success hs hpre

/-- C4 witness: the failing and the succeeding half at concrete records. -/
theorem transform_required_fields_witness :
    transform_record "t0" [("authors", JVal.jlist [])] =
      .error (.exnRecord (removedKeys.foldl delKey [("authors", JVal.jlist [])])) ∧
    (∃ out, transform_record "t0"
        [("upload_type", JVal.jstr "software"), ("authors", JVal.jlist [])] = .ok out ∧
      lookupKey out "resource_type" =
        lookupKey [("upload_type", JVal.jstr "software"), ("authors", JVal.jlist [])]
          "upload_type" ∧
      hasKey out "upload_type" = false) :=
  ⟨(transform_required_fields "t0" [("authors", JVal.jlist [])] (by decide)).1 (by decide),
   (transform_required_fields "t0"
     [("upload_type", JVal.jstr "software"), ("authors", JVal.jlist [])]
     (by decide)).2 (by decide)⟩

/-- C10: any not-yet-migrated record containing `upload_type` whose
`authors` is a list of dicts in which some entry has `affiliation` equal
to the empty list makes `transform_record` fail with the unhandled
IndexError of `_migrate_authors`, which takes the first element of every
list-valued affiliation without checking non-emptiness. -/
theorem authors_empty_affiliation_fails (now : String) (r : Record) (cs : List JVal)
    (hs : hasKey r "$schema" = false)
    (hut : hasKey r "upload_type" = true)
    (ha : lookupKey r "authors" = some (.jlist cs))
    (hdicts : ∀ c ∈ cs, ∃ kvs, c = .jdict kvs)
    (hempty : ∃ c ∈ cs, ∃ kvs, c = .jdict kvs ∧
       lookupKey kvs "affiliation" = some (.jlist [])) :
    transform_record now r = .error .indexError := by
  obtain ⟨ut, hut0⟩ := lookup_of_hasKey hut
  obtain ⟨r1, h1⟩ : ∃ r1, _remove_fields r = .ok r1 := ⟨_, rfl⟩
  have hut1 : lookupKey r1 "upload_type" = some ut := by
    rw [frame_remove_fields h1 (by decide), hut0]
  have h2 := upload_type_eq hut1
  have ha2 : lookupKey (delKey (setKey r1 "resource_type" ut) "upload_type") "authors" =
      some (.jlist cs) := by
    rw [frame_upload_type h2 (by decide) (by decide), frame_remove_fields h1 (by decide), ha]
  unfold transform_record
  rw [if_neg (by rw [hs]; exact Bool.false_ne_true)]
  simp only [transformations, List.foldlM_cons]
  rw [h1, except_ok_bind, h2, except_ok_bind]
  simp only [_migrate_authors, ha2, migrateAuthorsValue]
  rw [mapM_authors_indexError hdicts hempty, except_error_bind, except_error_bind,
    except_error_bind]

/-- C10 witness: a concrete record with an empty-list affiliation. -/
theorem authors_empty_affiliation_fails_witness :
    transform_record "t0"
      [("upload_type", JVal.jstr "p"),
       ("authors", JVal.jlist [.jdict [("affiliation", JVal.jlist [])]])] =
      .error .indexError :=
  authors_empty_affiliation_fails "t0"
    [("upload_type", JVal.jstr "p"),
     ("authors", JVal.jlist [.jdict [("affiliation", JVal.jlist [])]])]
    [.jdict [("affiliation", JVal.jlist [])]]
    (by decide) (by decide) (by decide)
    (by
      intro c hc
      rw [List.mem_singleton] at hc
      exact ⟨[("affiliation", JVal.jlist [])], hc⟩)
    ⟨.jdict [("affiliation", JVal.jlist [])], List.mem_singleton.mpr rfl,
     [("affiliation", JVal.jlist [])], rfl, by decide⟩

/-- C3: for every record whose fetch succeeds and that is not yet
migrated, if an exception other than the not-found condition arises from
the transform or from the record-persistence call, `migrate_record` rolls
the transaction back, sets the PID status looked up by the record uuid to
reserved, commits that compensating change alone, and re-raises the
original exception. -/
theorem migrate_record_failure_compensates (env : Env) (uuid : String)
    (r : Record) (e : PyErr)
    (hr : env.records uuid = some r)
    (hs : hasKey r "$schema" = false)
    (hne : e ≠ .noResultFound)
    (hfail : transform_record env.now r = .error e ∨
      (env.persistFailure = some e ∧ ∃ r', transform_record env.now r = .ok r')) :
    migrate_record env uuid =
      (.error e, ⟨[], [.pidSet uuid .reserved]⟩) := by
  have hbody : migrateBody env uuid ⟨[], []⟩ = (.error e, ⟨[], []⟩) := by
    simp only [migrateBody, hr]
    rw [if_neg (by rw [hs]; exact Bool.false_ne_true)]
    rcases hfail with htr | ⟨hpf, r', htr⟩
    · rw [htr]
    · rw [htr]
      simp only [hpf]
  unfold migrate_record
  rw [hbody]
  cases e with
  | noResultFound => exact absurd rfl hne
  | keyError k => simp [commitSession, stageEffect, rollbackSession]
  | indexError => simp [commitSession, stageEffect, rollbackSession]
  | typeError m => simp [commitSession, stageEffect, rollbackSession]
  | attributeError m => simp [commitSession, stageEffect, rollbackSession]
  | valueError => simp [commitSession, stageEffect, rollbackSession]
  | exnMsg m => simp [commitSession, stageEffect, rollbackSession]
  | exnRecord rr => simp [commitSession, stageEffect, rollbackSession]

/-- C3 witness: a concrete environment whose stored record lacks
`upload_type`, so the transform raises and the compensation runs. -/
theorem migrate_record_failure_compensates_witness :
    migrate_record
      ⟨fun u => if u = "u1" then some [("k", JVal.jnull)] else none,
       fun _ => false, fun _ _ => false, none, "t0"⟩ "u1" =
      (.error (.exnRecord [("k", JVal.jnull)]), ⟨[], [.pidSet "u1" .reserved]⟩) :=
  migrate_record_failure_compensates
    ⟨fun u => if u = "u1" then some [("k", JVal.jnull)] else none,
     fun _ => false, fun _ _ => false, none, "t0"⟩ "u1"
    [("k", JVal.jnull)] (.exnRecord [("k", JVal.jnull)])
    (by decide) (by decide) (by decide)
    (.inl (by decide))

/-- C7: for every not-yet-migrated record with `communities =
["a","b","a"]` on which `transform_record` succeeds, the output
`communities` value is a permutation of the duplicate-free two-element
list: duplicates removed, element order not guaranteed. -/
theorem communities_dedup (now : String) (r out : Record)
    (hs : hasKey r "$schema" = false)
    (hc : lookupKey r "communities" =
      some (.jlist [.jstr "a", .jstr "b", .jstr "a"]))
    (ht : transform_record now r = .ok out) :
    ∃ xs, lookupKey out "communities" = some (.jlist xs) ∧
      xs.Perm [JVal.jstr "a", JVal.jstr "b"] := by
  obtain ⟨r1, r2, r3, r4, r5, r6, r7, r8, r9, r10, r11, r12,
    h1, h2, h3, h4, h5, h6, h7, h8, h9, h10, h11, h12, h13⟩ := transform_steps hs ht
  have hc10 : lookupKey r10 "communities" =
      some (.jlist [.jstr "a", .jstr "b", .jstr "a"]) := by
    rw [frame_references h10 (by decide), frame_imprint h9 (by decide) (by decide),
      frame_description h8 (by decide),
      frame_owners h7 (by decide) (by decide) (by decide),
      frame_meetings h6 (by decide) (by decide), frame_grants h5 (by decide),
      frame_oai h4 (by decide) (by decide), frame_authors h3 (by decide) (by decide),
      frame_upload_type h2 (by decide) (by decide), frame_remove_fields h1 (by decide),
      hc]
  have hr11 := communities_step_value hc10 (by decide) (by decide) h11
  refine ⟨List.dedup [JVal.jstr "a", .jstr "b", .jstr "a"], ?_, by decide⟩
  rw [frame_add_schema h13 (by decide), frame_provisional h12 (by decide), hr11,
    lookup_setKey_self]

/-- C7 witness: the dedup property at a concrete record. -/
theorem communities_dedup_witness :
    ∃ xs, lookupKey
      [("communities", JVal.jlist [.jstr "b", .jstr "a"]),
       ("resource_type", JVal.jstr "p"), ("creators", JVal.jlist []),
       ("description", JVal.jstr ""), ("$schema", JVal.jstr schemaUrl)]
      "communities" = some (.jlist xs) ∧
      xs.Perm [JVal.jstr "a", JVal.jstr "b"] :=
  communities_dedup "t0"
    [("upload_type", JVal.jstr "p"), ("authors", JVal.jlist []),
     ("communities", JVal.jlist [.jstr "a", .jstr "b", .jstr "a"])]
    [("communities", JVal.jlist [.jstr "b", .jstr "a"]),
     ("resource_type", JVal.jstr "p"), ("creators", JVal.jlist []),
     ("description", JVal.jstr ""), ("$schema", JVal.jstr schemaUrl)]
    (by decide) (by decide) (by decide)

/-- C6: for every not-yet-migrated record with `communities = ["a"]` and
`provisional_communities = ["a","b"]` on which `transform_record`
succeeds, the output `provisional_communities` value is set-equal to the
singleton `["b"]`, order not guaranteed. -/
theorem provisional_exclusion (now : String) (r out : Record)
    (hs : hasKey r "$schema" = false)
    (hc : lookupKey r "communities" = some (.jlist [.jstr "a"]))
    (hp : lookupKey r "provisional_communities" =
      some (.jlist [.jstr "a", .jstr "b"]))
    (ht : transform_record now r = .ok out) :
    ∃ xs, lookupKey out "provisional_communities" = some (.jlist xs) ∧
      xs.Perm [JVal.jstr "b"] := by
  obtain ⟨r1, r2, r3, r4, r5, r6, r7, r8, r9, r10, r11, r12,
    h1, h2, h3, h4, h5, h6, h7, h8, h9, h10, h11, h12, h13⟩ := transform_steps hs ht
  have hc10 : lookupKey r10 "communities" = some (.jlist [.jstr "a"]) := by
    rw [frame_references h10 (by decide), frame_imprint h9 (by decide) (by decide),
      frame_description h8 (by decide),
      frame_owners h7 (by decide) (by decide) (by decide),
      frame_meetings h6 (by decide) (by decide), frame_grants h5 (by decide),
      frame_oai h4 (by decide) (by decide), frame_authors h3 (by decide) (by decide),
      frame_upload_type h2 (by decide) (by decide), frame_remove_fields h1 (by decide),
      hc]
  have hr11 := communities_step_value hc10 (by decide) (by decide) h11
  have hp11 : lookupKey r11 "provisional_communities" =
      some (.jlist [.jstr "a", .jstr "b"]) := by
    rw [hr11, lookup_setKey_ne _ _ _ _ (by decide), frame_references h10 (by decide),
      frame_imprint h9 (by decide) (by decide), frame_description h8 (by decide),
      frame_owners h7 (by decide) (by decide) (by decide),
      frame_meetings h6 (by decide) (by decide), frame_grants h5 (by decide),
      frame_oai h4 (by decide) (by decide), frame_authors h3 (by decide) (by decide),
      frame_upload_type h2 (by decide) (by decide), frame_remove_fields h1 (by decide),
      hp]
  have hc11 : lookupKey r11 "communities" =
      some (.jlist (List.dedup [JVal.jstr "a"])) := by
    rw [hr11, lookup_setKey_self]
  have hr12 := provisional_step_value hp11 hc11 (by decide) (by decide)
    (pySetOf_jlist (by decide)) h12
  refine ⟨List.filter (fun x => decide (x ∉ (List.dedup [JVal.jstr "a"]).dedup))
    (List.dedup [JVal.jstr "a", JVal.jstr "b"]), ?_, by decide⟩
  rw [frame_add_schema h13 (by decide), hr12, lookup_setKey_self]

/-- C6 witness: the exclusion property at a concrete record. -/
theorem provisional_exclusion_witness :
    ∃ xs, lookupKey
      [("communities", JVal.jlist [.jstr "a"]),
       ("provisional_communities", JVal.jlist [.jstr "b"]),
       ("resource_type", JVal.jstr "p"), ("creators", JVal.jlist []),
       ("description", JVal.jstr ""), ("$schema", JVal.jstr schemaUrl)]
      "provisional_communities" = some (.jlist xs) ∧
      xs.Perm [JVal.jstr "b"] :=
  provisional_exclusion "t0"
    [("upload_type", JVal.jstr "p"), ("authors", JVal.jlist []),
     ("communities", JVal.jlist [.jstr "a"]),
     ("provisional_communities", JVal.jlist [.jstr "a", .jstr "b"])]
    [("communities", JVal.jlist [.jstr "a"]),
     ("provisional_communities", JVal.jlist [.jstr "b"]),
     ("resource_type", JVal.jstr "p"), ("creators", JVal.jlist []),
     ("description", JVal.jstr ""), ("$schema", JVal.jstr schemaUrl)]
    (by decide) (by decide) (by decide) (by decide)

/-- C1 counterexample: with `provisional_communities = ["a"]` and
`communities = ["a"]` the record returned by `transform_record` still
contains the key `provisional_communities` (with value `[]`); the key is
not deleted, refuting the claim that it is absent. -/
theorem provisional_emptied_counterexample :
    transform_record "t0"
      [("upload_type", JVal.jstr "p"), ("authors", JVal.jlist []),
       ("communities", JVal.jlist [.jstr "a"]),
       ("provisional_communities", JVal.jlist [.jstr "a"])] =
      .ok [("communities", JVal.jlist [.jstr "a"]),
           ("provisional_communities", JVal.jlist []),
           ("resource_type", JVal.jstr "p"), ("creators", JVal.jlist []),
           ("description", JVal.jstr ""), ("$schema", JVal.jstr schemaUrl)] ∧
    hasKey [("communities", JVal.jlist [.jstr "a"]),
           ("provisional_communities", JVal.jlist []),
           ("resource_type", JVal.jstr "p"), ("creators", JVal.jlist []),
           ("description", JVal.jstr ""), ("$schema", JVal.jstr schemaUrl)]
      "provisional_communities" = true :=
  ⟨by decide, by decide⟩

/-- C1 (amended): for every not-yet-migrated record carrying hashable
list-valued `communities` and non-empty `provisional_communities` in which
every provisional entry already occurs in `communities`, the record
returned by `transform_record` carries `provisional_communities` with the
EMPTY LIST as value (the key remains present; it is not deleted). -/
theorem provisional_emptied_amended (now : String) (r out : Record)
    (cs ps : List JVal)
    (hs : hasKey r "$schema" = false)
    (hc : lookupKey r "communities" = some (.jlist cs))
    (hp : lookupKey r "provisional_communities" = some (.jlist ps))
    (hchash : cs.all hashable = true) (hphash : ps.all hashable = true)
    (hpne : ps ≠ [])
    (hsub : ∀ p ∈ ps, p ∈ cs)
    (ht : transform_record now r = .ok out) :
    lookupKey out "provisional_communities" = some (.jlist []) := by
  obtain ⟨r1, r2, r3, r4, r5, r6, r7, r8, r9, r10, r11, r12,
    h1, h2, h3, h4, h5, h6, h7, h8, h9, h10, h11, h12, h13⟩ := transform_steps hs ht
  have hc10 : lookupKey r10 "communities" = some (.jlist cs) := by
    rw [frame_references h10 (by decide), frame_imprint h9 (by decide) (by decide),
      frame_description h8 (by decide),
      frame_owners h7 (by decide) (by decide) (by decide),
      frame_meetings h6 (by decide) (by decide), frame_grants h5 (by decide),
      frame_oai h4 (by decide) (by decide), frame_authors h3 (by decide) (by decide),
      frame_upload_type h2 (by decide) (by decide), frame_remove_fields h1 (by decide),
      hc]
  have hcne : cs ≠ [] := by
    obtain ⟨p, hpmem⟩ := List.exists_mem_of_ne_nil ps hpne
    exact List.ne_nil_of_mem (hsub p hpmem)
  have hr11 := communities_step_value hc10 hcne hchash h11
  have hp11 : lookupKey r11 "provisional_communities" = some (.jlist ps) := by
    rw [hr11, lookup_setKey_ne _ _ _ _ (by decide), frame_references h10 (by decide),
      frame_imprint h9 (by decide) (by decide), frame_description h8 (by decide),
      frame_owners h7 (by decide) (by decide) (by decide),
      frame_meetings h6 (by decide) (by decide), frame_grants h5 (by decide),
      frame_oai h4 (by decide) (by decide), frame_authors h3 (by decide) (by decide),
      frame_upload_type h2 (by decide) (by decide), frame_remove_fields h1 (by decide),
      hp]
  have hc11 : lookupKey r11 "communities" = some (.jlist cs.dedup) := by
    rw [hr11, lookup_setKey_self]
  have hr12 := provisional_step_value hp11 hc11 hpne hphash
    (pySetOf_jlist (all_hashable_dedup hchash)) h12
  have hfil : ps.dedup.filter (fun x => decide (x ∉ (cs.dedup).dedup)) = [] := by
    rw [List.filter_eq_nil_iff]
    intro a ha
    have ha1 : a ∈ ps := List.mem_dedup.mp ha
    have ha2 : a ∈ cs := hsub a ha1
    simp [ha2]
  rw [frame_add_schema h13 (by decide), hr12, lookup_setKey_self, hfil]

/-- C1 witness: the amended behaviour at a concrete record. -/
theorem provisional_emptied_amended_witness :
    lookupKey [("communities", JVal.jlist [.jstr "a"]),
           ("provisional_communities", JVal.jlist []),
           ("resource_type", JVal.jstr "p"), ("creators", JVal.jlist []),
           ("description", JVal.jstr ""), ("$schema", JVal.jstr schemaUrl)]
      "provisional_communities" = some (.jlist []) :=
  provisional_emptied_amended "t0"
    [("upload_type", JVal.jstr "p"), ("authors", JVal.jlist []),
     ("communities", JVal.jlist [.jstr "a"]),
     ("provisional_communities", JVal.jlist [.jstr "a"])]
    [("communities", JVal.jlist [.jstr "a"]),
     ("provisional_communities", JVal.jlist []),
     ("resource_type", JVal.jstr "p"), ("creators", JVal.jlist []),
     ("description", JVal.jstr ""), ("$schema", JVal.jstr schemaUrl)]
    [.jstr "a"] [.jstr "a"]
    (by decide) (by decide) (by decide) (by decide) (by decide) (by decide)
    (by
      intro p hp
      rw [List.mem_singleton] at hp
      rw [hp]
      exact List.mem_singleton.mpr rfl)
    (by decide)

/-- C8: for every not-yet-migrated record with `owner =
dict(id="5", email="x@y.com")` on which the transform succeeds, the output
has `owners = [5]` (the id coerced to an integer), no `owner` key, and an
`_internal` whose `source.agents[0]` is exactly the uploader agent with
`email` and `user_id`, the falsy `username` pruned. -/
theorem owner_split (now : String) (r out : Record)
    (hs : hasKey r "$schema" = false)
    (ho : lookupKey r "owner" =
      some (.jdict [("id", .jstr "5"), ("email", .jstr "x@y.com")]))
    (ht : transform_record now r = .ok out) :
    lookupKey out "owners" = some (.jlist [.jint 5]) ∧
    hasKey out "owner" = false ∧
    lookupKey out "_internal" = some (.jdict
      [("state", .jstr "published"),
       ("source", .jdict
         [("legacy_deposit_id", .jnull),
          ("agents", .jlist [.jdict
            [("role", .jstr "uploader"), ("email", .jstr "x@y.com"),
             ("user_id", .jstr "5")]])])]) := by
  obtain ⟨r1, r2, r3, r4, r5, r6, r7, r8, r9, r10, r11, r12,
    h1, h2, h3, h4, h5, h6, h7, h8, h9, h10, h11, h12, h13⟩ := transform_steps hs ht
  have ho6 : lookupKey r6 "owner" =
      some (.jdict [("id", .jstr "5"), ("email", .jstr "x@y.com")]) := by
    rw [frame_meetings h6 (by decide) (by decide), frame_grants h5 (by decide),
      frame_oai h4 (by decide) (by decide), frame_authors h3 (by decide) (by decide),
      frame_upload_type h2 (by decide) (by decide), frame_remove_fields h1 (by decide),
      ho]
  have h7' : _migrate_owners r6 = .ok (setKey (setKey (delKey r6 "owner") "owners"
      (.jlist [.jint 5])) "_internal"
      (internalOf [("id", .jstr "5"), ("email", .jstr "x@y.com")])) := by
    simp only [_migrate_owners, ho6]
    rw [show ownersListOf [("id", JVal.jstr "5"), ("email", JVal.jstr "x@y.com")] =
      .ok (.jlist [.jint 5]) from by decide, except_ok_bind, except_pure]
  have hr7 : r7 = setKey (setKey (delKey r6 "owner") "owners" (.jlist [.jint 5]))
      "_internal" (internalOf [("id", .jstr "5"), ("email", .jstr "x@y.com")]) := by
    rw [h7] at h7'
    exact Except.ok.inj h7'
  have hIV : internalOf [("id", JVal.jstr "5"), ("email", JVal.jstr "x@y.com")] =
      .jdict [("state", .jstr "published"),
        ("source", .jdict [("legacy_deposit_id", .jnull),
          ("agents", .jlist [.jdict [("role", .jstr "uploader"),
            ("email", .jstr "x@y.com"), ("user_id", .jstr "5")]])])] := by decide
  have fchain : ∀ k : String, k ≠ "description" → k ≠ "imprint" → k ≠ "part_of" →
      k ≠ "references" → k ≠ "communities" → k ≠ "provisional_communities" →
      k ≠ "$schema" → lookupKey out k = lookupKey r7 k := by
    intro k a1 a2 a3 a4 a5 a6 a7
    rw [frame_add_schema h13 a7, frame_provisional h12 a6, frame_communities h11 a5,
      frame_references h10 a4, frame_imprint h9 a2 a3, frame_description h8 a1]
  refine ⟨?_, ?_, ?_⟩
  · rw [fchain _ (by decide) (by decide) (by decide) (by decide) (by decide)
      (by decide) (by decide), hr7, lookup_setKey_ne _ _ _ _ (by decide),
      lookup_setKey_self]
  · rw [hasKey_eq_isSome, fchain _ (by decide) (by decide) (by decide) (by decide)
      (by decide) (by decide) (by decide), hr7,
      lookup_setKey_ne _ _ _ _ (by decide), lookup_setKey_ne _ _ _ _ (by decide),
      lookup_delKey_self]
    rfl
  · rw [fchain _ (by decide) (by decide) (by decide) (by decide) (by decide)
      (by decide) (by decide), hr7, lookup_setKey_self, hIV]

/-- C8 witness: the owner split at a concrete record. -/
theorem owner_split_witness :
    lookupKey
      [("resource_type", JVal.jstr "p"), ("creators", JVal.jlist []),
       ("owners", JVal.jlist [.jint 5]),
       ("_internal", JVal.jdict
         [("state", .jstr "published"),
          ("source", .jdict
            [("legacy_deposit_id", .jnull),
             ("agents", .jlist [.jdict
               [("role", .jstr "uploader"), ("email", .jstr "x@y.com"),
                ("user_id", .jstr "5")]])])]),
       ("description", JVal.jstr ""), ("$schema", JVal.jstr schemaUrl)]
      "owners" = some (.jlist [.jint 5]) ∧
    hasKey
      [("resource_type", JVal.jstr "p"), ("creators", JVal.jlist []),
       ("owners", JVal.jlist [.jint 5]),
       ("_internal", JVal.jdict
         [("state", .jstr "published"),
          ("source", .jdict
            [("legacy_deposit_id", .jnull),
             ("agents", .jlist [.jdict
               [("role", .jstr "uploader"), ("email", .jstr "x@y.com"),
                ("user_id", .jstr "5")]])])]),
       ("description", JVal.jstr ""), ("$schema", JVal.jstr schemaUrl)]
      "owner" = false ∧
    lookupKey
      [("resource_type", JVal.jstr "p"), ("creators", JVal.jlist []),
       ("owners", JVal.jlist [.jint 5]),
       ("_internal", JVal.jdict
         [("state", .jstr "published"),
          ("source", .jdict
            [("legacy_deposit_id", .jnull),
             ("agents", .jlist [.jdict
               [("role", .jstr "uploader"), ("email", .jstr "x@y.com"),
                ("user_id", .jstr "5")]])])]),
       ("description", JVal.jstr ""), ("$schema", JVal.jstr schemaUrl)]
      "_internal" = some (.jdict
        [("state", .jstr "published"),
         ("source", .jdict
           [("legacy_deposit_id", .jnull),
            ("agents", .jlist [.jdict
              [("role", .jstr "uploader"), ("email", .jstr "x@y.com"),
               ("user_id", .jstr "5")]])])]) :=
  owner_split "t0"
    [("upload_type", JVal.jstr "p"), ("authors", JVal.jlist []),
     ("owner", JVal.jdict [("id", .jstr "5"), ("email", .jstr "x@y.com")])]
    [("resource_type", JVal.jstr "p"), ("creators", JVal.jlist []),
     ("owners", JVal.jlist [.jint 5]),
     ("_internal", JVal.jdict
       [("state", .jstr "published"),
        ("source", .jdict
          [("legacy_deposit_id", .jnull),
           ("agents", .jlist [.jdict
             [("role", .jstr "uploader"), ("email", .jstr "x@y.com"),
              ("user_id", .jstr "5")]])])]),
     ("description", JVal.jstr ""), ("$schema", JVal.jstr schemaUrl)]
    (by decide) (by decide) (by decide)

/-- C5 witness: the guard is not raised at a concrete record with a full
imprint. -/
theorem imprint_guard_unreachable_witness :
    _migrate_imprint
      [("imprint", JVal.jdict [("publisher", JVal.jstr "x"),
        ("title", JVal.jstr "t"), ("year", JVal.jint 2000)])] ≠
      .error (.exnMsg "Cannot migrate imprint") :=
  imprint_guard_unreachable
    [("imprint", JVal.jdict [("publisher", JVal.jstr "x"),
      ("title", JVal.jstr "t"), ("year", JVal.jint 2000)])]
